import Mathlib

/-!
Hummingbird tools: dispersion report, dispersion name generator, ring builder command

A shallow embedding of `tools/dispersion.go` and of the commands `set_info`,
`set_weight`, `remove` and `add` of `tools/ring.go`.

* External collaborators (configuration loader, database opener, ring loader,
  replication-queue store, policy registry, time formatting, flag parsing,
  standard input, package `ring`) are not part of the file; they enter the
  embedding as explicit inputs.
* A Go `map[int]T` is an association list with unique keys (`GoMap`).
* A Go run-time panic (index out of range, nil dereference) is `none`.
* Go `uint64` counters are natural numbers reduced modulo `2 ^ 64`.
-/

namespace Hummingbird

/-! ## Data model -/

namespace time

/-- Go `time.Time`, as the offset in nanoseconds from the zero instant. -/
structure Time where
  nsec : Int
deriving DecidableEq, Repr

/-- The zero value `time.Time{}`. -/
def zero : Time := ⟨0⟩

/-- Go `Time.IsZero`. -/
def Time.IsZero (t : Time) : Bool := t.nsec == 0

end time

/-- A Go `map[int]T`: association list, every key at most once. -/
abbrev GoMap (α : Type) := List (Int × α)

namespace GoMap

/-- Map lookup `m[k]` with presence (`v, ok := m[k]`). -/
def get? {α : Type} : GoMap α → Int → Option α
  | [], _ => none
  | (k0, v) :: rest, k => if k0 = k then some v else get? rest k

/-- Map assignment `m[k] = v`. -/
def set {α : Type} : GoMap α → Int → α → GoMap α
  | [], k, v => [(k, v)]
  | (k0, v0) :: rest, k, v => if k0 = k then (k, v) :: rest else (k0, v0) :: set rest k v

/-- The keys of the map, in iteration order. -/
def keys {α : Type} (m : GoMap α) : List Int := m.map Prod.fst

end GoMap

set_option linter.dupNamespace false in
/-- The fields of `ring.Device` read by the report builder. -/
structure Device where
  Ip : String
  Port : Int
  Device : String
deriving DecidableEq, Repr

/-- The read view `ring.Ring` (an interface of another package), as the record of
its methods. `AllDevices` is id-indexed with `none` for an empty slot;
`GetNodes` returns `none` for the nil slice. -/
structure Ring where
  PartitionCount : Nat
  ReplicaCount : Nat
  AllDevices : List (Option Device)
  GetNodes : Nat → Option (List Device)
  GetPartition : String → String → String → Nat

/-- One row of the replication queue. -/
structure queuedReplication where
  partition : Int
  toDeviceID : Int
  time : time.Time
deriving DecidableEq, Repr

/-- The values returned by `db.processPass` (the unused second value is left out). -/
structure PassResult where
  start : time.Time
  progress : String
  complete : time.Time
  err : Option String
deriving DecidableEq, Repr

/-- The replication-queue store, as the record of the answers of its queries.
Every query returns its value together with an optional error. -/
structure DB where
  processPass : String → String → Int → PassResult
  countOfServicesWithErrors : String → Int → Int × Option String
  countOfDevicesWithErrors : String → Int → Int × Option String
  queuedReplications : String → Int → String → List queuedReplication × Option String

/-- An entry of the policy registry. -/
structure Policy where
  Index : Int
  Name : String
deriving DecidableEq, Repr

/-- Everything `getDispersionReport` obtains from outside: the configuration loader
(on the given flags), the database opener, the ring loader `getRing("", typ, policy)`
(its error is discarded by the code), the policy registry `conf.GetPolicies()` in its
iteration order, and the clock. The type `σ` is the server configuration. -/
structure Env (σ : Type) where
  getAndrewdConf : Except String σ
  newDB : σ → Except String DB
  getRing : String → Int → Ring
  GetPolicies : List Policy × Option String
  now : time.Time

structure dispersionMissing where
  Time : time.Time
  Service : String
  Device : String
deriving DecidableEq, Repr

structure innerDispersionReport where
  PolicyName : String
  Start : time.Time
  Complete : time.Time
  TotalPartitions : Int
  ReplicaCount : Int
  Partitions : GoMap (List dispersionMissing)
  CountOfServicesWithErrors : Int
  CountOfDevicesWithErrors : Int
deriving DecidableEq, Repr

structure dispersionReport where
  Name : String
  Time : time.Time
  Pass : Bool
  Errors : List String
  IssueCount : Int
  ContainerReport : Option innerDispersionReport
  ObjectReports : GoMap innerDispersionReport
deriving DecidableEq, Repr

/-! ## getDispersionReport -/

/-- Go conversion `int(x)` of a `uint64` on a 64-bit platform. -/
def intOfUint64 (n : Nat) : Int :=
  if n % 2 ^ 64 < 2 ^ 63 then ((n % 2 ^ 64 : Nat) : Int) else ((n % 2 ^ 64 : Nat) : Int) - 2 ^ 64

/-- Go `strings.HasSuffix`, on the characters of the strings. -/
def HasSuffix (s suffix : String) : Bool := suffix.toList.isSuffixOf s.toList

/-- The marker suffix tested at lines 143 and 182. -/
def initSuffix : String := "-init does not yet exist"

/-- The statement `report.Errors = append(report.Errors, err.Error())`. -/
def dispersionReport.appendError (report : dispersionReport) (e : String) : dispersionReport :=
  { report with Errors := report.Errors ++ [e] }

/-- The guarded form `if err != nil { report.Errors = append(...) }`. -/
def dispersionReport.noteError (report : dispersionReport) : Option String → dispersionReport
  | none => report
  | some e => report.appendError e

/-- The expression `ring.AllDevices()[id]` followed by a dereference of the result:
fails for an index outside the slice and for an empty slot. -/
def resolveDevice (devs : List (Option Device)) (id : Int) : Option Device :=
  if id < 0 then none else (devs.get? id.toNat).join

/-- The record appended at lines 161-165 and 203-207. -/
def missingRecord (qr : queuedReplication) (dev : Device) : dispersionMissing :=
  { Time := qr.time, Service := dev.Ip ++ ":" ++ toString dev.Port, Device := dev.Device }

/-- The loop `for _, qr := range qrs` (lines 159-167 and 201-209) on the sub-report's
partition map and the report's pass flag. -/
def backlogLoop (ring : Ring) :
    GoMap (List dispersionMissing) × Bool → List queuedReplication →
      Option (GoMap (List dispersionMissing) × Bool)
  | st, [] => some st
  | (parts, _), qr :: rest =>
    match resolveDevice ring.AllDevices qr.toDeviceID with
    | none => none
    | some dev =>
      backlogLoop ring
        (parts.set qr.partition (((parts.get? qr.partition).getD []) ++ [missingRecord qr dev]),
          false) rest

/-- The sub-report literal of lines 137 and 175. -/
def newInnerReport (ring : Ring) : innerDispersionReport :=
  { PolicyName := "", Start := time.zero, Complete := time.zero,
    TotalPartitions := intOfUint64 ring.PartitionCount,
    ReplicaCount := intOfUint64 ring.ReplicaCount,
    Partitions := [], CountOfServicesWithErrors := 0, CountOfDevicesWithErrors := 0 }

/-- Lines 143-146 and 182-185: a marker ending in the suffix resets both times. -/
def normalizeInit (progress : String) (r : innerDispersionReport) : innerDispersionReport :=
  if HasSuffix progress initSuffix then { r with Start := time.zero, Complete := time.zero } else r

/-- Lines 136-168: the container section. -/
def containerSection {σ : Type} (env : Env σ) (db : DB) (report : dispersionReport) :
    Option dispersionReport :=
  let ring := env.getRing "container" 0
  let cr := newInnerReport ring
  let pp := db.processPass "dispersion scan" "container" 0
  let cr := { cr with Start := pp.start, Complete := pp.complete }
  let report := report.noteError pp.err
  let cr := normalizeInit pp.progress cr
  let sv := db.countOfServicesWithErrors "container" 0
  let cr := { cr with CountOfServicesWithErrors := sv.1 }
  let report := report.noteError sv.2
  let dv := db.countOfDevicesWithErrors "container" 0
  let cr := { cr with CountOfDevicesWithErrors := dv.1 }
  let report := report.noteError dv.2
  let q := db.queuedReplications "container" 0 "dispersion"
  match q.2 with
  | some e => some { report.appendError e with ContainerReport := some cr }
  | none =>
    match backlogLoop ring (cr.Partitions, report.Pass) q.1 with
    | none => none
    | some (parts, pass) =>
      some { report with ContainerReport := some { cr with Partitions := parts }, Pass := pass }

/-- Lines 174-209: the body of the loop over the policies. The sub-report is a
pointer stored in the map at line 195 and filled by the backlog loop afterwards;
the embedding stores the sub-report again after the loop. -/
def policyBody {σ : Type} (env : Env σ) (db : DB) (report : dispersionReport) (policy : Policy) :
    Option dispersionReport :=
  let ring := env.getRing "object" policy.Index
  let objectReport := newInnerReport ring
  let pp := db.processPass "dispersion scan" "object" policy.Index
  let objectReport := { objectReport with Start := pp.start, Complete := pp.complete }
  match pp.err with
  | some e => some (report.appendError e)
  | none =>
    let objectReport := normalizeInit pp.progress objectReport
    let sv := db.countOfServicesWithErrors "object" policy.Index
    let objectReport := { objectReport with CountOfServicesWithErrors := sv.1 }
    let report := report.noteError sv.2
    let dv := db.countOfDevicesWithErrors "object" policy.Index
    let objectReport := { objectReport with CountOfDevicesWithErrors := dv.1 }
    let report := report.noteError dv.2
    let objectReport := { objectReport with PolicyName := policy.Name }
    let report := { report with ObjectReports := report.ObjectReports.set policy.Index objectReport }
    let q := db.queuedReplications "object" policy.Index "dispersion"
    match q.2 with
    | some e => some (report.appendError e)
    | none =>
      match backlogLoop ring (objectReport.Partitions, report.Pass) q.1 with
      | none => none
      | some (parts, pass) =>
        some { report with
          ObjectReports := report.ObjectReports.set policy.Index { objectReport with Partitions := parts },
          Pass := pass }

/-- The loop `for _, policy := range policies` of line 173. -/
def policyLoop {σ : Type} (env : Env σ) (db : DB) :
    dispersionReport → List Policy → Option dispersionReport
  | report, [] => some report
  | report, policy :: rest =>
    match policyBody env db report policy with
    | none => none
    | some report1 => policyLoop env db report1 rest

/-- Lines 169-211. -/
def policySection {σ : Type} (env : Env σ) (db : DB) (report : dispersionReport) :
    Option dispersionReport :=
  match env.GetPolicies.2 with
  | some e => some (report.appendError e)
  | none => policyLoop env db report env.GetPolicies.1

/-- Lines 212-215. -/
def finish (report : dispersionReport) : dispersionReport :=
  if report.Errors.length > 0 then { report with Pass := false } else report

/-- The function `getDispersionReport`; `none` is a run-time panic. -/
def getDispersionReport {σ : Type} (env : Env σ) : Option dispersionReport :=
  let report : dispersionReport :=
    { Name := "Dispersion Report", Time := env.now, Pass := true, Errors := [], IssueCount := 0,
      ContainerReport := none, ObjectReports := [] }
  match env.getAndrewdConf with
  | .error e => some (report.appendError e)
  | .ok serverconf =>
    match env.newDB serverconf with
    | .error e => some (report.appendError e)
    | .ok db =>
      match containerSection env db report with
      | none => none
      | some report1 =>
        match policySection env db report1 with
        | none => none
        | some report2 => some (finish report2)

/-! ## The renderings `String` -/

/-- The renderings the code takes from package `time`: the two layouts of
`Format`, and `time.Since(t)` and `a.Sub(b)` truncated to the second as printed
under `%s`. -/
structure TimeFormat where
  second : time.Time → String
  minute : time.Time → String
  since : time.Time → String
  sub : time.Time → time.Time → String

/-- Go `sort.Ints`. -/
def sortInts (l : List Int) : List Int := l.insertionSort (fun a b => a ≤ b)

/-- Lines 66-73: the scan recency sentence. -/
def scanText (tf : TimeFormat) (r : innerDispersionReport) : String :=
  if r.Start.IsZero then "No known dispersion scan has been run.\n"
  else if r.Complete.IsZero then
    "Last dispersion scan started " ++ tf.minute r.Start ++ " and has yet to complete after "
      ++ tf.since r.Start ++ ".\n"
  else
    "Last dispersion scan ran from " ++ tf.minute r.Start ++ " to " ++ tf.minute r.Complete
      ++ " (" ++ tf.since r.Complete ++ " ago for " ++ tf.sub r.Complete r.Start ++ ").\n"

/-- Line 74. -/
def configuredText (r : innerDispersionReport) : String :=
  "There are " ++ toString r.TotalPartitions ++ " partitions configured for "
    ++ toString r.ReplicaCount ++ " copies.\n"

/-- Lines 78-81: `counts[len(partitions)]++` over the entries of the map. -/
def countLengths : GoMap Int → GoMap (List dispersionMissing) → GoMap Int
  | counts, [] => counts
  | counts, (_, partitions) :: rest =>
    countLengths
      (counts.set (partitions.length : Int) ((counts.get? (partitions.length : Int)).getD 0 + 1))
      rest

/-- Lines 88-97: the text appended for one key of `counts`. -/
def histogramLine (count key : Int) : String :=
  (if count = 1 then "! 1 partition was missing "
    else "! " ++ toString count ++ " partitions were missing ")
  ++ (if key = 1 then "1 copy.\n" else toString key ++ " copies.\n")

/-- Lines 78-98: the lines appended by the histogram branch, in order. -/
def histogramLines (parts : GoMap (List dispersionMissing)) : List String :=
  let counts := countLengths [] parts
  let keys := sortInts counts.keys
  keys.map (fun key => histogramLine ((counts.get? key).getD 0) key)

/-- Lines 100-109: the two reliability caveats. -/
def caveatText (r : innerDispersionReport) : String :=
  (if r.CountOfServicesWithErrors = 1 then
      "!! 1 service has been giving errors which may skew the report.\n"
    else if r.CountOfServicesWithErrors > 1 then
      "!! " ++ toString r.CountOfServicesWithErrors
        ++ " services have been giving errors which may skew the report.\n"
    else "")
  ++ (if r.CountOfDevicesWithErrors = 1 then
      "!! 1 device has been giving errors which may skew the report.\n"
    else if r.CountOfDevicesWithErrors > 1 then
      "!! " ++ toString r.CountOfDevicesWithErrors
        ++ " devices have been giving errors which may skew the report.\n"
    else "")

/-- The method `(*innerDispersionReport).String`. -/
def innerDispersionReport.String (tf : TimeFormat) (r : innerDispersionReport) : String :=
  let s := scanText tf r
  let s := s ++ configuredText r
  let s :=
    if (!r.Start.IsZero) && r.Partitions.length == 0 then
      s ++ "All partition copies were in place when last checked.\n"
    else
      (histogramLines r.Partitions).foldl (fun s line => s ++ line) s
  s ++ caveatText r

/-- The header of one object section, line 49. -/
def objectHeading (policy : Int) (name : String) : String :=
  "\nObject Dispersion Report for Policy: " ++ toString policy ++ " " ++ name ++ "\n"

/-- Lines 47-50: `for policy := range policies`, whose loop variable takes the
positions `0 .. len(policies)-1` of the sorted slice. The map lookup of line 48
yields a nil pointer for an absent key and line 49 dereferences it. -/
def sectionLoop (tf : TimeFormat) (r : dispersionReport) : String → List Nat → Option String
  | s, [] => some s
  | s, policy :: rest =>
    match r.ObjectReports.get? (policy : Int) with
    | none => none
    | some objReport =>
      sectionLoop tf r
        (s ++ objectHeading (policy : Int) objReport.PolicyName ++ objReport.String tf) rest

/-- The method `(*dispersionReport).String`; `none` is a run-time panic. -/
def dispersionReport.String (tf : TimeFormat) (r : dispersionReport) : Option String :=
  let s := "[" ++ tf.second r.Time ++ "] " ++ r.Name ++ "\n"
  let s := r.Errors.foldl (fun s e => s ++ "!! " ++ e ++ "\n") s
  let s :=
    match r.ContainerReport with
    | some cr => s ++ "\nContainer Dispersion Report\n" ++ cr.String tf
    | none => s
  let policies := sortInts r.ObjectReports.keys
  sectionLoop tf r s (List.range policies.length)

/-! ## generateDispersionNames -/

/-- How a statement ends with respect to the enclosing `for` loop. -/
inductive Completion where
  | normal
  | breakLoop
deriving DecidableEq, Repr

/-- The places at which a worker polls the cancel channel. -/
inductive CheckPoint where
  | perPartition (partition : Nat)
  | perAttempt (partition i : Nat)
deriving DecidableEq, Repr

/-- The statement `select { case <-cancel: break; default: }` of lines 236-240 and
246-250, `closed` telling whether the channel is observed closed. In Go a `break`
inside a `select` terminates that `select` statement, so either case completes
normally. -/
def selectCancel (closed : Bool) : Completion :=
  match closed with
  | true => Completion.normal
  | false => Completion.normal

/-- Wrap-around of `uint64` arithmetic. -/
def uint64 (n : Nat) : Nat := n % 2 ^ 64

/-- What one worker does: the candidate names passed to `GetPartition` and the
names sent on the channel, both in order. -/
structure WorkerTrace where
  tried : List String
  sent : List String
deriving DecidableEq, Repr

/-- Line 253: `fmt.Sprintf("%s%d-%d", prefix, partition, i)`. -/
def candidate (pfx : String) (partition i : Nat) : String :=
  pfx ++ toString partition ++ "-" ++ toString i

/-- Lines 251-259: the candidate is the container when `container` is empty, the
object inside `container` otherwise. -/
def genPart (AdminAccount container : String) (r : Ring) (n : String) : Nat :=
  if container = "" then r.GetPartition AdminAccount n "" else r.GetPartition AdminAccount container n

/-- Lines 245-264: the loop over the attempts `i`; `none` when the fuel runs out. -/
def attemptLoop (cancel : CheckPoint → Bool) (AdminAccount container pfx : String) (r : Ring)
    (partition : Nat) : Nat → Nat → Option WorkerTrace
  | 0, _ => none
  | fuel + 1, i =>
    match selectCancel (cancel (CheckPoint.perAttempt partition i)) with
    | Completion.breakLoop => some ⟨[], []⟩
    | Completion.normal =>
      let n := candidate pfx partition i
      if genPart AdminAccount container r n = partition then some ⟨[n], [n]⟩
      else
        (attemptLoop cancel AdminAccount container pfx r partition fuel (uint64 (i + 1))).map
          (fun t => ⟨n :: t.tried, t.sent⟩)

/-- Lines 235-265: the loop of one worker over its partitions; `none` when the fuel
runs out. -/
def worker (cancel : CheckPoint → Bool) (AdminAccount container pfx : String) (r : Ring)
    (numCPU : Nat) : Nat → Nat → Option WorkerTrace
  | 0, _ => none
  | fuel + 1, partition =>
    match selectCancel (cancel (CheckPoint.perPartition partition)) with
    | Completion.breakLoop => some ⟨[], []⟩
    | Completion.normal =>
      match r.GetNodes partition with
      | none => some ⟨[], []⟩
      | some _ =>
        match attemptLoop cancel AdminAccount container pfx r partition fuel 0 with
        | none => none
        | some t =>
          (worker cancel AdminAccount container pfx r numCPU fuel (uint64 (partition + numCPU))).map
            (fun u => ⟨t.tried ++ u.tried, t.sent ++ u.sent⟩)

/-- All results, when every one is present. -/
def collect {α : Type} : List (Option α) → Option (List α)
  | [] => some []
  | none :: _ => none
  | some a :: rest => (collect rest).map (fun l => a :: l)

/-- The function `generateDispersionNames` with `numCPU` workers: the trace of
every worker, worker `cpu` at position `cpu`, once all of them have finished
(`wg.Wait`), the receiver taking every name sent. The order in which names of
different workers reach the channel is not fixed. -/
def generateDispersionNames (cancel : CheckPoint → Bool) (AdminAccount container pfx : String)
    (r : Ring) (numCPU fuel : Nat) : Option (List WorkerTrace) :=
  collect ((List.range numCPU).map
    (fun cpu => worker cancel AdminAccount container pfx r numCPU fuel cpu))

/-! ## RingBuildCmd (tools/ring.go) -/

/-- The search filters shared by the flag sets of `search`, `set_info`, `set_weight`
and `remove`; `F` is `float64`. -/
structure SearchFlags (F : Type) where
  region : Int
  zone : Int
  ip : String
  port : Int
  repIp : String
  repPort : Int
  device : String
  weight : F
  meta : String

/-- The parsed flag set of `set_info` (lines 117-133). -/
structure ChangeFlags (F : Type) where
  search : SearchFlags F
  yes : Bool
  newIp : String
  newPort : Int
  newRepIp : String
  newRepPort : Int
  newDevice : String
  newMeta : String

/-- The parsed flag set of `set_weight` and of `remove` (lines 171-181, 229-239) with
the remaining positional arguments `weightFlags.Args()`. -/
structure WeightFlags (F : Type) where
  search : SearchFlags F
  yes : Bool
  args : List String

/-- A call into package `ring` that mutates the builder; `D` is
`*ring.RingBuilderDevice`. -/
inductive RingCall (F D : Type) where
  | SetInfo (pth : String) (devs : List D) (newIp : String) (newPort : Int) (newRepIp : String)
      (newRepPort : Int) (newDevice : String) (newMeta : String)
  | SetWeight (pth : String) (devs : List D) (newWeight : F)
  | RemoveDevs (pth : String) (devs : List D)
  | AddDevice (pth : String) (id region zone : Int) (ip : String) (port : Int)
      (replicationIp : String) (replicationPort : Int) (device : String) (weight : F)
      (debug : Bool)
deriving DecidableEq, Repr

/-- An operand of a `Printf`. -/
inductive PrintArg (F : Type) where
  | int (n : Int)
  | float (x : F)
  | str (s : String)
deriving DecidableEq, Repr

/-- What the command does, in order. -/
inductive Event (F D : Type) where
  | Usage
  | Println (s : String)
  | Printf (format : String) (operands : List (PrintArg F))
  | PrintDevs (devs : List D)
  | Call (c : RingCall F D)
deriving DecidableEq, Repr

/-- Everything `RingBuildCmd` obtains from outside: the parsers of package `flag` for
the two flag sets, `strconv.ParseFloat(s, 64)`, `ring.Search`, the line that
`reader.ReadString` returns from standard input with its error, the errors returned
by the mutating calls, the id returned by `ring.AddDevice`, and the trace of the
commands that are not embedded (`create`, `rebalance`, `search`, `write_ring`,
`load`, `info`). With `flag.ExitOnError` a failed parse ends the process inside
`Parse`; the embedding follows the code's own error branch, which prints the error
and returns, and either way nothing else happens. -/
structure CmdEnv (F D : Type) where
  parseChangeFlags : List String → Except String (ChangeFlags F)
  parseWeightFlags : List String → Except String (WeightFlags F)
  ParseFloat : String → Except String F
  Search : String → SearchFlags F → Except String (List D)
  ReadString : String × Option String
  callError : RingCall F D → Option String
  addedId : RingCall F D → Int
  otherCommand : String → List String → Option (List (Event F D))

/-- Lines 150-161, 208-219 and 256-267 after the prompt has been printed: read the
response and test its first byte; `none` is the panic of `resp[0]` on an empty
string, `some false` a return without the mutating call. -/
def confirm {F D : Type} (env : CmdEnv F D) (declined : String) :
    Option (List (Event F D) × Bool) :=
  match env.ReadString.2 with
  | some e => some ([Event.Println e], false)
  | none =>
    match env.ReadString.1.toList with
    | [] => none
    | c :: _ =>
      if c ≠ 'y' ∧ c ≠ 'Y' then some ([Event.Println declined], false) else some ([], true)

/-- The call of a mutating operation with the report of its result. -/
def callAndReport {F D : Type} (env : CmdEnv F D) (c : RingCall F D) (done : String) :
    List (Event F D) :=
  match env.callError c with
  | some e => [Event.Call c, Event.Println e]
  | none => [Event.Call c, Event.Println done]

/-- Lines 143-168, 201-226 and 249-274: the part common to the three commands once
the search has returned `devs`. -/
def confirmAndCall {F D : Type} (env : CmdEnv F D) (devs : List D) (yes : Bool)
    (prompt : Event F D) (declined : String) (c : RingCall F D) (done : String) :
    Option (List (Event F D)) :=
  if devs.length = 0 then some [Event.Println "No matching devices found."]
  else
    let head : List (Event F D) :=
      [Event.Println "Search matched the following devices:", Event.PrintDevs devs]
    if !yes then
      match confirm env declined with
      | none => none
      | some (evs, false) => some (head ++ [prompt] ++ evs)
      | some (evs, true) => some (head ++ [prompt] ++ evs ++ callAndReport env c done)
    else some (head ++ callAndReport env c done)

/-- The case `set_info`, lines 116-168; `rest` is `args[2:]`. -/
def setInfoCmd {F D : Type} (env : CmdEnv F D) (pth : String) (rest : List String) :
    Option (List (Event F D)) :=
  match env.parseChangeFlags rest with
  | .error e => some [Event.Println e]
  | .ok fl =>
    match env.Search pth fl.search with
    | .error e => some [Event.Println e]
    | .ok devs =>
      confirmAndCall env devs fl.yes
        (Event.Printf "Are you sure you want to update the info for these %d devices (y/n)? "
          [PrintArg.int devs.length])
        "No devices updated."
        (RingCall.SetInfo pth devs fl.newIp fl.newPort fl.newRepIp fl.newRepPort fl.newDevice
          fl.newMeta)
        "Devices updated successfully."

/-- The case `set_weight`, lines 170-226. -/
def setWeightCmd {F D : Type} (env : CmdEnv F D) (pth : String) (rest : List String) :
    Option (List (Event F D)) :=
  match env.parseWeightFlags rest with
  | .error e => some [Event.Println e]
  | .ok fl =>
    match fl.args with
    | [] => some [Event.Usage]
    | arg0 :: _ =>
      match env.ParseFloat arg0 with
      | .error e => some [Event.Println e]
      | .ok newWeight =>
        match env.Search pth fl.search with
        | .error e => some [Event.Println e]
        | .ok devs =>
          confirmAndCall env devs fl.yes
            (Event.Printf
              "Are you sure you want to update the weight to %.2f for these %d devices (y/n)? "
              [PrintArg.float newWeight, PrintArg.int devs.length])
            "No devices updated."
            (RingCall.SetWeight pth devs newWeight)
            "Weight updated successfully."

/-- The case `remove`, lines 228-274. -/
def removeCmd {F D : Type} (env : CmdEnv F D) (pth : String) (rest : List String) :
    Option (List (Event F D)) :=
  match env.parseWeightFlags rest with
  | .error e => some [Event.Println e]
  | .ok fl =>
    match env.Search pth fl.search with
    | .error e => some [Event.Println e]
    | .ok devs =>
      confirmAndCall env devs fl.yes
        (Event.Printf "Are you sure you want to remove these %d devices (y/n)? "
          [PrintArg.int devs.length])
        "No devices removed."
        (RingCall.RemoveDevs pth devs)
        "Devices removed successfully."

/-- The two errors of the number parsers of package `strconv`. -/
inductive NumError where
  | ErrSyntax
  | ErrRange
deriving DecidableEq, Repr

/-- The text of the error that `strconv.ParseInt` returns for the digit run `s`. -/
def NumError.text (s : String) : NumError → String
  | NumError.ErrSyntax => "strconv.ParseInt: parsing \"" ++ s ++ "\": invalid syntax"
  | NumError.ErrRange => "strconv.ParseInt: parsing \"" ++ s ++ "\": value out of range"

/-- The value of a decimal digit. -/
def digitValue (c : Char) : Nat := c.toNat - 48

/-- The digit loop of `strconv.ParseUint` for a base up to 10 and 64 bits: a character
that is not a digit below the base is a syntax error, a value beyond `2^64 - 1` a
range error. -/
def scanDigits (base : Nat) : Nat → List Char → Except NumError Nat
  | n, [] => .ok n
  | n, c :: cs =>
    if c.isDigit ∧ digitValue c < base then
      if base * n + digitValue c < 2 ^ 64 then scanDigits base (base * n + digitValue c) cs
      else .error NumError.ErrRange
    else .error NumError.ErrSyntax

/-- The final test of `strconv.ParseInt` for 64 bits and no sign. -/
def signedRange : Except NumError Nat → Except NumError Int
  | .ok un => if un < 2 ^ 63 then .ok (un : Int) else .error NumError.ErrRange
  | .error e => .error e

/-- The call `strconv.ParseInt(s, 0, 64)` of lines 299, 307, 313 and 321, following the
Go library, on the strings that reach it: the groups `\d+` of the regular expression
hold decimal digits only. With base 0 a leading `0` selects base 8 for the rest of
the run and any other run is read in base 10. Signs, underscores and the prefixes
`0x`, `0o`, `0b` are not covered. -/
def ParseInt (s : String) : Except NumError Int :=
  match s.toList with
  | [] => .error NumError.ErrSyntax
  | '0' :: cs => signedRange (scanDigits 8 0 cs)
  | cs => signedRange (scanDigits 10 0 cs)

/-- The submatches `matches[0][1..8]` of the regular expression of line 292, by group
name; a group that did not take part is the empty string. -/
structure Submatch where
  region : String
  zone : String
  ip : String
  port : String
  replication_ip : String
  replication_port : String
  device : String
  metadata : String
deriving DecidableEq, Repr

/-- The class `[\d\.]`. -/
def isIpChar (c : Char) : Bool := c.isDigit || c == '.'

/-- The class `[^_]`. -/
def isDeviceChar (c : Char) : Bool := c != '_'

/-- A greedy repetition `class+`: the longest run of the class, which must be
non-empty, and the rest of the input. -/
def takeRun (p : Char → Bool) (s : List Char) : Option (List Char × List Char) :=
  match s.takeWhile p with
  | [] => none
  | run => some (run, s.dropWhile p)

/-- A literal character of the expression. -/
def expect (c : Char) : List Char → Option (List Char)
  | [] => none
  | d :: rest => if d = c then some rest else none

/-- The group `(?:r(?P<region>\d+))?`. -/
def rxRegion : List Char → Option (List Char × List Char)
  | 'r' :: t => takeRun Char.isDigit t
  | s => some ([], s)

/-- The group `(?:R(?P<replication_ip>[\d\.]+):(?P<replication_port>\d+))?`. -/
def rxReplication : List Char → Option ((List Char × List Char) × List Char)
  | 'R' :: t =>
    (takeRun isIpChar t).bind (fun (rip, t1) =>
      (expect ':' t1).bind (fun t2 =>
        (takeRun Char.isDigit t2).bind (fun (rport, t3) => some ((rip, rport), t3))))
  | s => some (([], []), s)

/-- The tail `(?:_(?P<metadata>.+))?$`: the end of the text, or `_` followed by a
non-empty rest without a newline. -/
def rxMetadata : List Char → Option (List Char)
  | [] => some []
  | '_' :: t => if t ≠ [] ∧ t.all (fun c => c != '\n') then some t else none
  | _ => none

/-- The call `rx.FindAllStringSubmatch(deviceStr, -1)` for the expression
`^(?:r(?P<region>\d+))?z(?P<zone>\d+)-(?P<ip>[\d\.]+):(?P<port>\d+)`
`(?:R(?P<replication_ip>[\d\.]+):(?P<replication_port>\d+))?\/(?P<device>[^_]+)`
`(?:_(?P<metadata>.+))?$`: `none` when there is no match, the submatches of the only
match otherwise. Every repetition and every optional group of the expression is
followed by a character outside its own class, so a match, when there is one, is the
one found by taking each repetition as long as possible. -/
def rxMatch (deviceStr : String) : Option Submatch :=
  (rxRegion deviceStr.data).bind (fun (region, s1) =>
  (expect 'z' s1).bind (fun s2 =>
  (takeRun Char.isDigit s2).bind (fun (zone, s3) =>
  (expect '-' s3).bind (fun s4 =>
  (takeRun isIpChar s4).bind (fun (ip, s5) =>
  (expect ':' s5).bind (fun s6 =>
  (takeRun Char.isDigit s6).bind (fun (port, s7) =>
  (rxReplication s7).bind (fun (rep, s8) =>
  (expect '/' s8).bind (fun s9 =>
  (takeRun isDeviceChar s9).bind (fun (device, s10) =>
  (rxMetadata s10).bind (fun metadata =>
    some { region := String.mk region, zone := String.mk zone, ip := String.mk ip,
           port := String.mk port, replication_ip := String.mk rep.1,
           replication_port := String.mk rep.2, device := String.mk device,
           metadata := String.mk metadata })))))))))))

/-- The report of a failed `strconv.ParseInt`, `fmt.Println(err)`. -/
def parseIntFailed {F D : Type} (s : String) (e : NumError) : Option (List (Event F D)) :=
  some [Event.Println (e.text s)]

/-- The case `add`, lines 279-342; `args` is the whole argument list. -/
def addCmd {F D : Type} (env : CmdEnv F D) (debug : Bool) (pth : String) (args : List String) :
    Option (List (Event F D)) :=
  match args with
  | _ :: _ :: deviceStr :: weightStr :: _ =>
    match rxMatch deviceStr with
    | none => some [Event.Usage]
    | some m =>
      match (if m.region ≠ "" then ParseInt m.region else .ok 0) with
      | .error e => parseIntFailed m.region e
      | .ok region =>
        match ParseInt m.zone with
        | .error e => parseIntFailed m.zone e
        | .ok zone =>
          let ip := m.ip
          match ParseInt m.port with
          | .error e => parseIntFailed m.port e
          | .ok port =>
            match (if m.replication_ip ≠ "" then
                (ParseInt m.replication_port).map (fun p => (m.replication_ip, p))
              else .ok ("", 0)) with
            | .error e => parseIntFailed m.replication_port e
            | .ok (replicationIp, replicationPort) =>
              let device := m.device
              match env.ParseFloat weightStr with
              | .error e => some [Event.Println e]
              | .ok weight =>
                let c := RingCall.AddDevice pth (-1) region zone ip port replicationIp
                  replicationPort device weight debug
                match env.callError c with
                | some e => some [Event.Call c, Event.Println e]
                | none =>
                  some [Event.Call c,
                    Event.Printf "Device %s with %.2f weight added with id %d\n"
                      [PrintArg.str device, PrintArg.float weight, PrintArg.int (env.addedId c)]]
  | _ => some [Event.Usage]

/-- The function `RingBuildCmd`: `debug` is the value of the flag `debug`, `args` is
`flags.Args()`; the result is the trace of the run, `none` a run-time panic. -/
def RingBuildCmd {F D : Type} (env : CmdEnv F D) (debug : Bool) (args : List String) :
    Option (List (Event F D)) :=
  match args with
  | pth :: cmd :: rest =>
    if pth = "help" then some [Event.Usage]
    else if cmd = "set_info" then setInfoCmd env pth rest
    else if cmd = "set_weight" then setWeightCmd env pth rest
    else if cmd = "remove" then removeCmd env pth rest
    else if cmd = "add" then addCmd env debug pth args
    else if cmd = "create" ∨ cmd = "rebalance" ∨ cmd = "search" ∨ cmd = "write_ring"
        ∨ cmd = "load" ∨ cmd = "info" then env.otherCommand cmd args
    else some []
  | _ => some [Event.Usage]

/-- The mutating calls of a trace, in order. -/
def ringCalls {F D : Type} : List (Event F D) → List (RingCall F D)
  | [] => []
  | Event.Call c :: rest => c :: ringCalls rest
  | _ :: rest => ringCalls rest

/-! ## Auxiliary definitions used in the statements -/

/-- Helper: the partition map after the backlog loop, without the pass flag. -/
def backlogParts (ring : Ring) :
    GoMap (List dispersionMissing) → List queuedReplication → Option (GoMap (List dispersionMissing))
  | parts, [] => some parts
  | parts, qr :: rest =>
    match resolveDevice ring.AllDevices qr.toDeviceID with
    | none => none
    | some dev =>
      backlogParts ring
        (parts.set qr.partition (((parts.get? qr.partition).getD []) ++ [missingRecord qr dev])) rest

/-- Every entry of the backlog targets a present device of the ring. -/
def EntriesKnown (ring : Ring) (qrs : List queuedReplication) : Prop :=
  ∀ qr ∈ qrs, ∃ dev, resolveDevice ring.AllDevices qr.toDeviceID = some dev

/-- Helper: the records of the entries of the backlog naming partition `p`. -/
def recordsFor (ring : Ring) (qrs : List queuedReplication) (p : Int) : List dispersionMissing :=
  (qrs.filter (fun qr => qr.partition = p)).filterMap
    (fun qr => (resolveDevice ring.AllDevices qr.toDeviceID).map (missingRecord qr))

/-- The four store queries for one ring returned no error. -/
def QueriesOk (db : DB) (typ : String) (idx : Int) : Prop :=
  (db.processPass "dispersion scan" typ idx).err = none ∧
  (db.countOfServicesWithErrors typ idx).2 = none ∧
  (db.countOfDevicesWithErrors typ idx).2 = none ∧
  (db.queuedReplications typ idx "dispersion").2 = none

/-- The backlog tagged "dispersion" of one ring is empty. -/
def BacklogEmpty (db : DB) (typ : String) (idx : Int) : Prop :=
  (db.queuedReplications typ idx "dispersion").1 = []

/-- Helper: the sub-report that the loop body leaves in the map for a policy whose
`processPass` returned no error. -/
def objectReportOf {σ : Type} (env : Env σ) (db : DB) (policy : Policy) : innerDispersionReport :=
  let ring := env.getRing "object" policy.Index
  let pp := db.processPass "dispersion scan" "object" policy.Index
  let q := db.queuedReplications "object" policy.Index "dispersion"
  { normalizeInit pp.progress
      { newInnerReport ring with Start := pp.start, Complete := pp.complete } with
    CountOfServicesWithErrors := (db.countOfServicesWithErrors "object" policy.Index).1
    CountOfDevicesWithErrors := (db.countOfDevicesWithErrors "object" policy.Index).1
    PolicyName := policy.Name
    Partitions :=
      match q.2 with
      | some _ => []
      | none => (backlogParts ring [] q.1).getD [] }

/-- Helper: the container sub-report that `containerSection` stores. -/
def containerReportOf {σ : Type} (env : Env σ) (db : DB) : innerDispersionReport :=
  let ring := env.getRing "container" 0
  let pp := db.processPass "dispersion scan" "container" 0
  let q := db.queuedReplications "container" 0 "dispersion"
  { normalizeInit pp.progress
      { newInnerReport ring with Start := pp.start, Complete := pp.complete } with
    CountOfServicesWithErrors := (db.countOfServicesWithErrors "container" 0).1
    CountOfDevicesWithErrors := (db.countOfDevicesWithErrors "container" 0).1
    Partitions :=
      match q.2 with
      | some _ => []
      | none => (backlogParts ring [] q.1).getD [] }

/-- Helper: the report before the first query, line 120. -/
def initialReport (now : time.Time) : dispersionReport :=
  { Name := "Dispersion Report", Time := now, Pass := true, Errors := [], IssueCount := 0,
    ContainerReport := none, ObjectReports := [] }

/-- No store query and no policy-registry query returned an error. -/
def NoQueryError {σ : Type} (env : Env σ) (db : DB) : Prop :=
  env.GetPolicies.2 = none ∧ QueriesOk db "container" 0 ∧
    ∀ p ∈ env.GetPolicies.1, QueriesOk db "object" p.Index

/-- The "dispersion" backlog of the container ring and of every policy's object
ring is empty. -/
def BacklogsEmpty {σ : Type} (env : Env σ) (db : DB) : Prop :=
  BacklogEmpty db "container" 0 ∧ ∀ p ∈ env.GetPolicies.1, BacklogEmpty db "object" p.Index

/-- Every backlog entry of the container ring and of every policy's object ring
targets a present device of its ring. -/
def BacklogsKnown {σ : Type} (env : Env σ) (db : DB) : Prop :=
  EntriesKnown (env.getRing "container" 0) (db.queuedReplications "container" 0 "dispersion").1 ∧
    ∀ p ∈ env.GetPolicies.1,
      EntriesKnown (env.getRing "object" p.Index)
        (db.queuedReplications "object" p.Index "dispersion").1

/-- A ring of eight partitions with devices 0 and 2 present and slot 1 empty. -/
def sampleRing : Ring :=
  { PartitionCount := 8, ReplicaCount := 3,
    AllDevices := [some ⟨"10.0.0.1", 6001, "sda"⟩, none, some ⟨"10.0.0.2", 6002, "sdb"⟩],
    GetNodes := fun p => if p < 8 then some [] else none,
    GetPartition := fun _ c o => (c.length + o.length) % 8 }

/-- A store whose queries all succeed with empty answers. -/
def quietDB : DB :=
  { processPass := fun _ _ _ => ⟨⟨100⟩, "done", ⟨200⟩, none⟩,
    countOfServicesWithErrors := fun _ _ => (0, none),
    countOfDevicesWithErrors := fun _ _ => (0, none),
    queuedReplications := fun _ _ _ => ([], none) }

/-- The environment around a given store and policy list. -/
def sampleEnv (db : DB) (policies : List Policy) : Env Unit :=
  { getAndrewdConf := .ok (), newDB := fun _ => .ok db, getRing := fun _ _ => sampleRing,
    GetPolicies := (policies, none), now := ⟨1000⟩ }

/-- An environment whose configuration loader fails. -/
def confErrorEnv : Env Unit :=
  { sampleEnv quietDB [] with getAndrewdConf := .error "no andrewd config" }

/-- An environment whose database opener fails. -/
def dbErrorEnv : Env Unit :=
  { sampleEnv quietDB [] with newDB := fun _ => .error "cannot open database" }

/-- A store whose container backlog holds one entry, for partition 7 and device 0. -/
def backlogDB : DB :=
  { quietDB with
    queuedReplications := fun typ _ _ =>
      if typ = "container" then ([⟨7, 0, ⟨300⟩⟩], none) else ([], none) }

/-- The device list of the ring holds the present device `dev` at index `id`: the
index is not negative, it is below the length of the list, and the slot is not
empty. Stated on the list `AllDevices` itself. -/
def DeviceAt (ring : Ring) (id : Int) (dev : Device) : Prop :=
  0 ≤ id ∧ ring.AllDevices.get? id.toNat = some (some dev)

/-- Every entry of the backlog has a `toDeviceID` that indexes a present device of the
ring's `AllDevices` list. -/
def EntriesPresent (ring : Ring) (qrs : List queuedReplication) : Prop :=
  ∀ qr ∈ qrs, ∃ dev, DeviceAt ring qr.toDeviceID dev

/-- Every backlog entry of the container ring and of every policy's object ring has a
`toDeviceID` that indexes a present device of its ring's `AllDevices` list. -/
def BacklogsPresent {σ : Type} (env : Env σ) (db : DB) : Prop :=
  EntriesPresent (env.getRing "container" 0)
      (db.queuedReplications "container" 0 "dispersion").1 ∧
    ∀ p ∈ env.GetPolicies.1,
      EntriesPresent (env.getRing "object" p.Index)
        (db.queuedReplications "object" p.Index "dispersion").1

/-- The record `rec` is the one of the backlog entry `qr`: its Time is the entry's
time, its Service is `<ip>:<port>` of the device at index `toDeviceID` of the ring's
device list and its Device is that device's name. -/
def RecordOf (ring : Ring) (qr : queuedReplication) (rec : dispersionMissing) : Prop :=
  ∃ dev, DeviceAt ring qr.toDeviceID dev ∧ rec.Time = qr.time ∧
    rec.Service = dev.Ip ++ ":" ++ toString dev.Port ∧ rec.Device = dev.Device

/-- The partition map `m` records the backlog `qrs`: a key `p` is present exactly when
some entry names partition `p`, and the list under `p` holds one record per such
entry, in backlog order. -/
def RecordsBacklog (ring : Ring) (qrs : List queuedReplication)
    (m : GoMap (List dispersionMissing)) : Prop :=
  ∀ p : Int, ((m.get? p).isSome ↔ ∃ qr ∈ qrs, qr.partition = p) ∧
    List.Forall₂ (RecordOf ring) (qrs.filter (fun qr => qr.partition = p)) ((m.get? p).getD [])

/-- The progress marker is some text followed by `-init does not yet exist`. -/
def EndsWithInitMarker (progress : String) : Prop :=
  ∃ pre : String, progress = pre ++ "-init does not yet exist"

/-- The times of the sub-report `sub` follow the answer `pp` of `processPass`: both
the zero time (offset 0) when the progress marker ends with
`-init does not yet exist`, the returned start and completion times otherwise. -/
def TimesFollow (pp : PassResult) (sub : innerDispersionReport) : Prop :=
  (EndsWithInitMarker pp.progress → sub.Start = ⟨0⟩ ∧ sub.Complete = ⟨0⟩) ∧
    (¬ EndsWithInitMarker pp.progress → sub.Start = pp.start ∧ sub.Complete = pp.complete)

/-- A store whose container progress marker says that the scan has not been
initialised and whose object progress markers are those of a finished scan. -/
def halfInitDB : DB :=
  { quietDB with
    processPass := fun _ typ _ =>
      if typ = "container" then ⟨⟨100⟩, "container-init does not yet exist", ⟨200⟩, none⟩
      else ⟨⟨100⟩, "object-1", ⟨200⟩, none⟩ }

/-- A store whose progress markers say that the scan has not been initialised. -/
def initDB : DB :=
  { quietDB with
    processPass := fun _ typ _ => ⟨⟨100⟩, typ ++ "-init does not yet exist", ⟨200⟩, none⟩ }

/-- A store that answers the queries for the object ring of policy 2 like `quietDB`,
with a backlog entry for partition 3 and device 2, and every other query with an
error. -/
def noisyDB : DB :=
  { processPass := fun _ typ idx =>
      if typ = "object" ∧ idx = 2 then ⟨⟨100⟩, "done", ⟨200⟩, none⟩
      else ⟨⟨0⟩, "", ⟨0⟩, some "processPass failed"⟩,
    countOfServicesWithErrors := fun typ idx =>
      if typ = "object" ∧ idx = 2 then (0, none) else (0, some "count failed"),
    countOfDevicesWithErrors := fun typ idx =>
      if typ = "object" ∧ idx = 2 then (0, none) else (0, some "count failed"),
    queuedReplications := fun typ idx _ =>
      if typ = "object" ∧ idx = 2 then ([⟨3, 2, ⟨400⟩⟩], none) else ([], some "queue failed") }

/-- The store `quietDB` with the backlog entry of `noisyDB` for policy 2. -/
def calmDB : DB :=
  { quietDB with
    queuedReplications := fun typ idx _ =>
      if typ = "object" ∧ idx = 2 then ([⟨3, 2, ⟨400⟩⟩], none) else ([], none) }

/-- The histogram line that states `n` partitions missing `K` copies: `1 partition was`
for one partition and `n partitions were` otherwise, `1 copy` for one copy and
`K copies` otherwise. -/
def statedLine (n : Nat) (K : Int) : String :=
  "! " ++ (if n = 1 then "1 partition was" else toString n ++ " partitions were")
    ++ " missing " ++ (if K = 1 then "1 copy" else toString K ++ " copies") ++ ".\n"

/-- A sub-report with one partition missing one copy and two partitions missing two
copies. -/
def sampleSubReport : innerDispersionReport :=
  { PolicyName := "gold", Start := ⟨100⟩, Complete := ⟨200⟩, TotalPartitions := 8,
    ReplicaCount := 3,
    Partitions :=
      [(7, [⟨⟨300⟩, "10.0.0.1:6001", "sda"⟩]),
       (3, [⟨⟨301⟩, "10.0.0.1:6001", "sda"⟩, ⟨⟨302⟩, "10.0.0.2:6002", "sdb"⟩]),
       (2, [⟨⟨303⟩, "10.0.0.1:6001", "sda"⟩, ⟨⟨304⟩, "10.0.0.2:6002", "sdb"⟩])],
    CountOfServicesWithErrors := 1, CountOfDevicesWithErrors := 2 }

/-- The number `N_K` of partitions of the map whose list has exactly `K` records. -/
def partitionsMissing (parts : GoMap (List dispersionMissing)) (K : Int) : Nat :=
  parts.countP (fun e => (e.2.length : Int) = K)

/-- A rendering of times for the sample inputs. -/
def sampleFormat : TimeFormat :=
  { second := fun t => "t" ++ toString t.nsec, minute := fun t => "m" ++ toString t.nsec,
    since := fun _ => "1s", sub := fun a b => toString (a.nsec - b.nsec) ++ "ns" }

/-- The candidate name of attempt `i` for `partition` hashes to `partition`. -/
def Hits (AdminAccount container pfx : String) (r : Ring) (partition i : Nat) : Prop :=
  genPart AdminAccount container r (candidate pfx partition i) = partition

/-- Attempt `i` is the least attempt whose candidate hashes to `partition`. -/
def LeastHit (AdminAccount container pfx : String) (r : Ring) (partition i : Nat) : Prop :=
  Hits AdminAccount container pfx r partition i ∧
    ∀ j, j < i → ¬ Hits AdminAccount container pfx r partition j

/-- The partitions below `P` that are congruent to `w` modulo `W`, ascending. -/
def workerPartitions (P W w : Nat) : List Nat := (List.range P).filter (fun p => p % W = w)

/-- Helper: the trace of a worker that, for each partition of `ps` in turn, tries the
attempts `0 .. att p` and sends the candidate of attempt `att p`. -/
def expectedTrace (pfx : String) (att : Nat → Nat) (ps : List Nat) : WorkerTrace :=
  ⟨(ps.map (fun p => (List.range (att p + 1)).map (candidate pfx p))).flatten,
    ps.map (fun p => candidate pfx p (att p))⟩

/-- A ring of two partitions whose hash is the parity of the length of the name. -/
def parityRing : Ring :=
  { PartitionCount := 2, ReplicaCount := 1, AllDevices := [some ⟨"10.0.0.1", 6001, "sda"⟩],
    GetNodes := fun p => if p < 2 then some [⟨"10.0.0.1", 6001, "sda"⟩] else none,
    GetPartition := fun _ c o => (c.length + o.length) % 2 }

instance instDecidableHits (AdminAccount container pfx : String) (r : Ring) (partition i : Nat) :
    Decidable (Hits AdminAccount container pfx r partition i) := by
  unfold Hits
  infer_instance

instance instDecidableLeastHit (AdminAccount container pfx : String) (r : Ring)
    (partition i : Nat) : Decidable (LeastHit AdminAccount container pfx r partition i) := by
  unfold LeastHit
  infer_instance

instance instDecidableEntriesKnown (ring : Ring) (qrs : List queuedReplication) :
    Decidable (EntriesKnown ring qrs) :=
  decidable_of_iff (∀ qr ∈ qrs, (resolveDevice ring.AllDevices qr.toDeviceID).isSome = true)
    (by simp [EntriesKnown, Option.isSome_iff_exists])

instance instDecidableQueriesOk (db : DB) (typ : String) (idx : Int) :
    Decidable (QueriesOk db typ idx) := by
  unfold QueriesOk
  infer_instance

instance instDecidableBacklogEmpty (db : DB) (typ : String) (idx : Int) :
    Decidable (BacklogEmpty db typ idx) := by
  unfold BacklogEmpty
  infer_instance

instance instDecidableNoQueryError {σ : Type} (env : Env σ) (db : DB) :
    Decidable (NoQueryError env db) := by
  unfold NoQueryError
  infer_instance

instance instDecidableBacklogsEmpty {σ : Type} (env : Env σ) (db : DB) :
    Decidable (BacklogsEmpty env db) := by
  unfold BacklogsEmpty
  infer_instance

instance instDecidableBacklogsKnown {σ : Type} (env : Env σ) (db : DB) :
    Decidable (BacklogsKnown env db) := by
  unfold BacklogsKnown
  infer_instance

instance instDecidableEndsWithInitMarker (progress : String) :
    Decidable (EndsWithInitMarker progress) :=
  decidable_of_iff ("-init does not yet exist".data <:+ progress.data) (by
    constructor
    · rintro ⟨t, ht⟩
      exact ⟨String.mk t, String.ext (by rw [String.data_append]; exact ht.symm)⟩
    · rintro ⟨pre, hpre⟩
      exact ⟨pre.data, by rw [hpre, String.data_append]⟩)

instance instDecidableTimesFollow (pp : PassResult) (sub : innerDispersionReport) :
    Decidable (TimesFollow pp sub) := by
  unfold TimesFollow
  infer_instance

/-- A store whose container backlog holds one entry, for partition 7 and the given
destination device id. -/
def staleDB (toDeviceID : Int) : DB :=
  { quietDB with
    queuedReplications := fun typ _ _ =>
      if typ = "container" then ([⟨7, toDeviceID, ⟨300⟩⟩], none) else ([], none) }

/-- The operator has confirmed: the yes flag is set, or a response line was read
without error and its first character is `y` or `Y`. -/
def Confirmed (yes : Bool) (read : String × Option String) : Prop :=
  yes = true ∨
    (read.2 = none ∧ (read.1.toList.head? = some 'y' ∨ read.1.toList.head? = some 'Y'))

/-- The contract of `bufio.Reader.ReadString`: the error is nil only when the returned
data ends in the delimiter. -/
def ReadContract (read : String × Option String) : Prop :=
  read.2 = none → read.1.toList.getLast? = some '\n'

instance instDecidableConfirmed (yes : Bool) (read : String × Option String) :
    Decidable (Confirmed yes read) := by
  unfold Confirmed
  infer_instance

instance instDecidableReadContract (read : String × Option String) :
    Decidable (ReadContract read) := by
  unfold ReadContract
  infer_instance

/-- The condition of `set_info`: the flags parse to `fl`, the search succeeds with the
non-empty list `devs`, and the operator has confirmed. -/
def SetInfoAllowed {F D : Type} (env : CmdEnv F D) (pth : String) (rest : List String)
    (fl : ChangeFlags F) (devs : List D) : Prop :=
  env.parseChangeFlags rest = .ok fl ∧ env.Search pth fl.search = .ok devs ∧ devs ≠ [] ∧
    Confirmed fl.yes env.ReadString

/-- The condition of `set_weight`: the flags parse to `fl`, the first positional
argument parses to the number `newWeight`, the search succeeds with the non-empty
list `devs`, and the operator has confirmed. -/
def SetWeightAllowed {F D : Type} (env : CmdEnv F D) (pth : String) (rest : List String)
    (fl : WeightFlags F) (newWeight : F) (devs : List D) : Prop :=
  env.parseWeightFlags rest = .ok fl ∧
    (∃ arg0 tail, fl.args = arg0 :: tail ∧ env.ParseFloat arg0 = .ok newWeight) ∧
    env.Search pth fl.search = .ok devs ∧ devs ≠ [] ∧ Confirmed fl.yes env.ReadString

/-- The condition of `remove`: the flags parse to `fl`, the search succeeds with the
non-empty list `devs`, and the operator has confirmed. -/
def RemoveAllowed {F D : Type} (env : CmdEnv F D) (pth : String) (rest : List String)
    (fl : WeightFlags F) (devs : List D) : Prop :=
  env.parseWeightFlags rest = .ok fl ∧ env.Search pth fl.search = .ok devs ∧ devs ≠ [] ∧
    Confirmed fl.yes env.ReadString

/-- A non-empty run of decimal digits. -/
def IsDigitRun (l : List Char) : Prop := l ≠ [] ∧ ∀ c ∈ l, c.isDigit = true

/-- A non-empty run of the characters of a class. -/
def IsRunOf (p : Char → Bool) (l : List Char) : Prop := l ≠ [] ∧ ∀ c ∈ l, p c = true

/-- The base-10 value of a run of digits. -/
def decimalValue (l : List Char) : Nat := l.foldl (fun n c => 10 * n + digitValue c) 0

/-- A digit run written without a superfluous leading zero whose base-10 value fits
`int64`. -/
def PlainDecimal (l : List Char) : Prop :=
  IsDigitRun l ∧ (l = ['0'] ∨ l.head? ≠ some '0') ∧ decimalValue l < 2 ^ 63

/-- A device descriptor by its parts, the form
`[r<region>]z<zone>-<ip>:<port>[R<replication ip>:<replication port>]/<device>[_<metadata>]`. -/
structure Descriptor where
  region : Option (List Char)
  zone : List Char
  ip : List Char
  port : List Char
  replication : Option (List Char × List Char)
  device : List Char
  metadata : Option (List Char)

/-- The parts of a descriptor are of the right kind: digit runs for region, zone, port
and replication port, non-empty runs of digits and dots for the two addresses, a
non-empty device name without `_`, a non-empty metadata text without a newline. -/
def Descriptor.WellFormed (d : Descriptor) : Prop :=
  (∀ r, d.region = some r → IsDigitRun r) ∧ IsDigitRun d.zone ∧ IsRunOf isIpChar d.ip ∧
    IsDigitRun d.port ∧
    (∀ q, d.replication = some q → IsRunOf isIpChar q.1 ∧ IsDigitRun q.2) ∧
    IsRunOf isDeviceChar d.device ∧
    (∀ m, d.metadata = some m → m ≠ [] ∧ ∀ c ∈ m, c ≠ '\n')

/-- The optional part `r<region>`. -/
def regionChars : Option (List Char) → List Char
  | some r => 'r' :: r
  | none => []

/-- The optional part `R<replication ip>:<replication port>`. -/
def replicationChars : Option (List Char × List Char) → List Char
  | some q => 'R' :: (q.1 ++ ':' :: q.2)
  | none => []

/-- The optional part `_<metadata>`. -/
def metadataChars : Option (List Char) → List Char
  | some m => '_' :: m
  | none => []

/-- The characters of the descriptor as written. -/
def Descriptor.chars (d : Descriptor) : List Char :=
  regionChars d.region ++ 'z' :: d.zone ++ '-' :: d.ip ++ ':' :: d.port
    ++ replicationChars d.replication ++ '/' :: d.device ++ metadataChars d.metadata

/-- The descriptor as written. -/
def Descriptor.render (d : Descriptor) : String := String.mk d.chars

/-- The submatches that the parts of a descriptor give. -/
def Descriptor.submatch (d : Descriptor) : Submatch :=
  { region := String.mk (d.region.getD []), zone := String.mk d.zone, ip := String.mk d.ip,
    port := String.mk d.port,
    replication_ip := String.mk ((d.replication.map Prod.fst).getD []),
    replication_port := String.mk ((d.replication.map Prod.snd).getD []),
    device := String.mk d.device, metadata := String.mk (d.metadata.getD []) }

/-- The region passed for a descriptor whose digit runs are read in base 10: 0 when
the `r` part is omitted. -/
def Descriptor.regionValue (d : Descriptor) : Int :=
  match d.region with
  | some r => (decimalValue r : Int)
  | none => 0

/-- The replication address passed for a descriptor: empty when the `R` part is
omitted. -/
def Descriptor.replicationIp (d : Descriptor) : String :=
  match d.replication with
  | some q => String.mk q.1
  | none => ""

/-- The replication port passed for a descriptor whose digit runs are read in base 10:
0 when the `R` part is omitted. -/
def Descriptor.replicationPortValue (d : Descriptor) : Int :=
  match d.replication with
  | some q => (decimalValue q.2 : Int)
  | none => 0

/-- The digit runs of a descriptor are plain decimals. -/
def Descriptor.PlainNumbers (d : Descriptor) : Prop :=
  (∀ r, d.region = some r → PlainDecimal r) ∧ PlainDecimal d.zone ∧ PlainDecimal d.port ∧
    (∀ q, d.replication = some q → PlainDecimal q.2)

/-- A sample of the outside of `RingBuildCmd` with integers for `float64` and numbers
for devices: the flag `-yes` is recognised, the weights `1` and `2` parse, the
search returns the devices 0 and 2, every call succeeds. -/
def sampleCmdEnv (response : String × Option String) : CmdEnv Int Nat :=
  { parseChangeFlags := fun rest =>
      .ok { search := ⟨-1, -1, "", -1, "", -1, "", -1, ""⟩, yes := rest.contains "-yes",
            newIp := "10.0.0.9", newPort := -1, newRepIp := "", newRepPort := -1,
            newDevice := "", newMeta := "" },
    parseWeightFlags := fun rest =>
      .ok { search := ⟨-1, -1, "", -1, "", -1, "", -1, ""⟩, yes := rest.contains "-yes",
            args := rest.filter (fun a => a != "-yes") },
    ParseFloat := fun s =>
      if s = "1" then .ok 1 else if s = "2" then .ok 2
      else .error "strconv.ParseFloat: invalid syntax",
    Search := fun _ _ => .ok [0, 2],
    ReadString := response,
    callError := fun _ => none,
    addedId := fun _ => 3,
    otherCommand := fun _ _ => some [] }

/-- The descriptor `z010-10.0.0.1:6000/sda`. -/
def leadingZeroDescriptor : Descriptor :=
  { region := none, zone := ['0', '1', '0'], ip := "10.0.0.1".data, port := "6000".data,
    replication := none, device := "sda".data, metadata := none }

/-- The descriptor `z08-10.0.0.1:6000/sda`. -/
def eightDescriptor : Descriptor :=
  { leadingZeroDescriptor with zone := ['0', '8'] }

/-- The descriptor `z9223372036854775808-10.0.0.1:6000/sda`, whose zone is `2^63`. -/
def hugeDescriptor : Descriptor :=
  { leadingZeroDescriptor with zone := "9223372036854775808".data }

/-- The descriptor `r1z2-10.0.0.1:6000R10.0.0.2:6001/sda_ssd`. -/
def fullDescriptor : Descriptor :=
  { region := some ['1'], zone := ['2'], ip := "10.0.0.1".data, port := "6000".data,
    replication := some ("10.0.0.2".data, "6001".data), device := "sda".data,
    metadata := some "ssd".data }

instance instDecidableIsRunOf (p : Char → Bool) (l : List Char) : Decidable (IsRunOf p l) := by
  unfold IsRunOf
  infer_instance

instance instDecidableIsDigitRun (l : List Char) : Decidable (IsDigitRun l) := by
  unfold IsDigitRun
  infer_instance

instance instDecidablePlainDecimal (l : List Char) : Decidable (PlainDecimal l) := by
  unfold PlainDecimal
  infer_instance

/-! ## Theorems -/

/-! ### Maps and the backlog loop -/

theorem GoMap.get?_set_self {α : Type} (m : GoMap α) (k : Int) (v : α) :
    (m.set k v).get? k = some v := by
  induction m with
  | nil => simp [GoMap.set, GoMap.get?]
  | cons hd tl ih =>
    obtain ⟨k0, v0⟩ := hd
    by_cases h : k0 = k
    · simp [GoMap.set, GoMap.get?, h]
    · simp [GoMap.set, GoMap.get?, h, ih]

theorem GoMap.get?_set_ne {α : Type} (m : GoMap α) (k k1 : Int) (v : α) (hne : k ≠ k1) :
    (m.set k v).get? k1 = m.get? k1 := by
  induction m with
  | nil => simp [GoMap.set, GoMap.get?, hne]
  | cons hd tl ih =>
    obtain ⟨k0, v0⟩ := hd
    by_cases h : k0 = k
    · subst h
      simp [GoMap.set, GoMap.get?, hne]
    · by_cases h1 : k0 = k1
      · subst h1
        simp [GoMap.set, GoMap.get?, h]
      · simp [GoMap.set, GoMap.get?, h, h1, ih]

theorem GoMap.mem_set {α : Type} (m : GoMap α) (k : Int) (v : α) (x : Int × α)
    (hx : x ∈ m.set k v) : x = (k, v) ∨ x ∈ m := by
  induction m with
  | nil => simpa [GoMap.set] using hx
  | cons hd tl ih =>
    obtain ⟨k0, v0⟩ := hd
    by_cases h : k0 = k
    · simp [GoMap.set, h] at hx
      rcases hx with hx | hx
      · exact Or.inl hx
      · exact Or.inr (List.mem_cons_of_mem _ hx)
    · simp [GoMap.set, h] at hx
      rcases hx with hx | hx
      · exact Or.inr (by simp [hx])
      · rcases ih hx with h2 | h2
        · exact Or.inl h2
        · exact Or.inr (List.mem_cons_of_mem _ h2)

theorem backlogLoop_eq (ring : Ring) (qrs : List queuedReplication)
    (parts : GoMap (List dispersionMissing)) (pass : Bool) :
    backlogLoop ring (parts, pass) qrs
      = (backlogParts ring parts qrs).map (fun m => (m, pass && qrs.isEmpty)) := by
  induction qrs generalizing parts pass with
  | nil => simp [backlogLoop, backlogParts]
  | cons qr rest ih =>
    cases h : resolveDevice ring.AllDevices qr.toDeviceID with
    | none => simp [backlogLoop, backlogParts, h]
    | some dev => simp [backlogLoop, backlogParts, h, ih]

theorem backlogParts_isSome (ring : Ring) (qrs : List queuedReplication)
    (parts : GoMap (List dispersionMissing)) (hk : EntriesKnown ring qrs) :
    ∃ m, backlogParts ring parts qrs = some m := by
  induction qrs generalizing parts with
  | nil => exact ⟨parts, rfl⟩
  | cons qr rest ih =>
    obtain ⟨dev, hdev⟩ := hk qr (List.mem_cons_self _ _)
    have hrest : EntriesKnown ring rest := fun q hq => hk q (List.mem_cons_of_mem _ hq)
    simp only [backlogParts, hdev]
    exact ih _ hrest

theorem backlogParts_get? (ring : Ring) (qrs : List queuedReplication)
    (parts m : GoMap (List dispersionMissing)) (h : backlogParts ring parts qrs = some m) (p : Int) :
    m.get? p = if qrs.filter (fun qr => qr.partition = p) = [] then parts.get? p
      else some ((parts.get? p).getD [] ++ recordsFor ring qrs p) := by
  induction qrs generalizing parts with
  | nil =>
    simp only [backlogParts, Option.some.injEq] at h
    simp [h]
  | cons qr rest ih =>
    cases hd : resolveDevice ring.AllDevices qr.toDeviceID with
    | none => simp [backlogParts, hd] at h
    | some dev =>
      simp only [backlogParts, hd] at h
      rw [ih _ h]
      by_cases hp : qr.partition = p
      · subst hp
        simp only [GoMap.get?_set_self, recordsFor, List.filter_cons, decide_True, if_true,
          List.filterMap_cons, hd, Option.map_some', Option.getD_some]
        split <;> simp_all
      · simp only [GoMap.get?_set_ne _ _ _ _ hp, recordsFor, List.filter_cons, hp, decide_False]
        simp

/-! ### The loop over the policies -/

@[simp] theorem normalizeInit_Partitions (progress : String) (r : innerDispersionReport) :
    (normalizeInit progress r).Partitions = r.Partitions := by
  unfold normalizeInit; split <;> rfl

@[simp] theorem noteError_Pass (report : dispersionReport) (e : Option String) :
    (report.noteError e).Pass = report.Pass := by
  cases e <;> rfl

@[simp] theorem noteError_ContainerReport (report : dispersionReport) (e : Option String) :
    (report.noteError e).ContainerReport = report.ContainerReport := by
  cases e <;> rfl

@[simp] theorem noteError_ObjectReports (report : dispersionReport) (e : Option String) :
    (report.noteError e).ObjectReports = report.ObjectReports := by
  cases e <;> rfl

theorem noteError_Errors_nil (report : dispersionReport) (e : Option String) :
    (report.noteError e).Errors = [] ↔ report.Errors = [] ∧ e = none := by
  cases e <;> simp [dispersionReport.noteError, dispersionReport.appendError]

theorem policyBody_flags {σ : Type} (env : Env σ) (db : DB) (report r1 : dispersionReport)
    (policy : Policy) (h : policyBody env db report policy = some r1) :
    (r1.Errors = [] ∧ r1.Pass = true) ↔
      (report.Errors = [] ∧ report.Pass = true ∧ QueriesOk db "object" policy.Index
        ∧ BacklogEmpty db "object" policy.Index) := by
  unfold policyBody at h
  simp only [backlogLoop_eq] at h
  unfold QueriesOk BacklogEmpty
  cases h1 : (db.processPass "dispersion scan" "object" policy.Index).err with
  | some e =>
    simp only [h1, Option.some.injEq] at h
    subst h
    simp [dispersionReport.appendError]
  | none =>
    simp only [h1] at h
    cases h4 : (db.queuedReplications "object" policy.Index "dispersion").2 with
    | some e =>
      simp only [h4, Option.some.injEq] at h
      subst h
      simp [dispersionReport.appendError]
    | none =>
      simp only [h4] at h
      cases h5 : backlogParts (env.getRing "object" policy.Index) []
          (db.queuedReplications "object" policy.Index "dispersion").1 with
      | none => simp [h5, newInnerReport] at h
      | some m =>
        simp [h5, newInnerReport] at h
        subst h
        simp [noteError_Errors_nil]
        tauto

theorem policyBody_frame {σ : Type} (env : Env σ) (db : DB) (report r1 : dispersionReport)
    (policy : Policy) (h : policyBody env db report policy = some r1) :
    r1.ContainerReport = report.ContainerReport ∧ r1.Name = report.Name ∧ r1.Time = report.Time := by
  unfold policyBody at h
  simp only [backlogLoop_eq] at h
  cases h1 : (db.processPass "dispersion scan" "object" policy.Index).err with
  | some e =>
    simp only [h1, Option.some.injEq] at h
    subst h
    simp [dispersionReport.appendError]
  | none =>
    simp only [h1] at h
    cases h4 : (db.queuedReplications "object" policy.Index "dispersion").2 with
    | some e =>
      simp only [h4, Option.some.injEq] at h
      subst h
      cases (db.countOfServicesWithErrors "object" policy.Index).2 <;>
        cases (db.countOfDevicesWithErrors "object" policy.Index).2 <;>
        simp [dispersionReport.appendError, dispersionReport.noteError]
    | none =>
      simp only [h4] at h
      cases h5 : backlogParts (env.getRing "object" policy.Index) []
          (db.queuedReplications "object" policy.Index "dispersion").1 with
      | none => simp [h5, newInnerReport] at h
      | some m =>
        simp [h5, newInnerReport] at h
        subst h
        cases (db.countOfServicesWithErrors "object" policy.Index).2 <;>
          cases (db.countOfDevicesWithErrors "object" policy.Index).2 <;>
          simp [dispersionReport.appendError, dispersionReport.noteError]

theorem policyBody_get?_ne {σ : Type} (env : Env σ) (db : DB) (report r1 : dispersionReport)
    (policy : Policy) (h : policyBody env db report policy = some r1) (k : Int)
    (hk : policy.Index ≠ k) :
    r1.ObjectReports.get? k = report.ObjectReports.get? k := by
  unfold policyBody at h
  simp only [backlogLoop_eq] at h
  cases h1 : (db.processPass "dispersion scan" "object" policy.Index).err with
  | some e =>
    simp only [h1, Option.some.injEq] at h
    subst h
    simp [dispersionReport.appendError]
  | none =>
    simp only [h1] at h
    cases h4 : (db.queuedReplications "object" policy.Index "dispersion").2 with
    | some e =>
      simp only [h4, Option.some.injEq] at h
      subst h
      simp [dispersionReport.appendError, GoMap.get?_set_ne _ _ _ _ hk]
    | none =>
      simp only [h4] at h
      cases h5 : backlogParts (env.getRing "object" policy.Index) []
          (db.queuedReplications "object" policy.Index "dispersion").1 with
      | none => simp [h5, newInnerReport] at h
      | some m =>
        simp [h5, newInnerReport] at h
        subst h
        simp [GoMap.get?_set_ne _ _ _ _ hk]

theorem policyBody_get?_self {σ : Type} (env : Env σ) (db : DB) (report r1 : dispersionReport)
    (policy : Policy) (h : policyBody env db report policy = some r1) :
    r1.ObjectReports.get? policy.Index =
      if (db.processPass "dispersion scan" "object" policy.Index).err = none then
        some (objectReportOf env db policy)
      else report.ObjectReports.get? policy.Index := by
  unfold policyBody at h
  simp only [backlogLoop_eq] at h
  cases h1 : (db.processPass "dispersion scan" "object" policy.Index).err with
  | some e =>
    simp only [h1, Option.some.injEq] at h
    subst h
    simp [dispersionReport.appendError]
  | none =>
    simp only [h1] at h
    cases h4 : (db.queuedReplications "object" policy.Index "dispersion").2 with
    | some e =>
      simp only [h4, Option.some.injEq] at h
      subst h
      simp [dispersionReport.appendError, GoMap.get?_set_self, objectReportOf, h4, normalizeInit,
        newInnerReport]
      split <;> rfl
    | none =>
      simp only [h4] at h
      cases h5 : backlogParts (env.getRing "object" policy.Index) []
          (db.queuedReplications "object" policy.Index "dispersion").1 with
      | none => simp [h5, newInnerReport] at h
      | some m =>
        simp [h5, newInnerReport] at h
        subst h
        simp [GoMap.get?_set_self, objectReportOf, h4, h5, normalizeInit, newInnerReport]

theorem policyBody_isSome {σ : Type} (env : Env σ) (db : DB) (report : dispersionReport)
    (policy : Policy)
    (hk : EntriesKnown (env.getRing "object" policy.Index)
      (db.queuedReplications "object" policy.Index "dispersion").1) :
    ∃ r1, policyBody env db report policy = some r1 := by
  obtain ⟨m, hm⟩ := backlogParts_isSome _ _ [] hk
  unfold policyBody
  simp only [backlogLoop_eq]
  cases h1 : (db.processPass "dispersion scan" "object" policy.Index).err with
  | some e => exact ⟨_, rfl⟩
  | none =>
    cases h4 : (db.queuedReplications "object" policy.Index "dispersion").2 with
    | some e => exact ⟨_, rfl⟩
    | none => simp [hm, newInnerReport]

theorem policyLoop_flags {σ : Type} (env : Env σ) (db : DB) (ps : List Policy)
    (report r1 : dispersionReport) (h : policyLoop env db report ps = some r1) :
    (r1.Errors = [] ∧ r1.Pass = true) ↔
      (report.Errors = [] ∧ report.Pass = true ∧
        ∀ p ∈ ps, QueriesOk db "object" p.Index ∧ BacklogEmpty db "object" p.Index) := by
  induction ps generalizing report with
  | nil =>
    simp only [policyLoop, Option.some.injEq] at h
    subst h
    simp
  | cons p rest ih =>
    cases hb : policyBody env db report p with
    | none => simp [policyLoop, hb] at h
    | some r0 =>
      simp only [policyLoop, hb] at h
      have h1 := ih r0 h
      have h2 := policyBody_flags env db report r0 p hb
      simp only [List.mem_cons, forall_eq_or_imp]
      tauto

theorem policyLoop_frame {σ : Type} (env : Env σ) (db : DB) (ps : List Policy)
    (report r1 : dispersionReport) (h : policyLoop env db report ps = some r1) :
    r1.ContainerReport = report.ContainerReport ∧ r1.Name = report.Name ∧ r1.Time = report.Time := by
  induction ps generalizing report with
  | nil =>
    simp only [policyLoop, Option.some.injEq] at h
    subst h
    simp
  | cons p rest ih =>
    cases hb : policyBody env db report p with
    | none => simp [policyLoop, hb] at h
    | some r0 =>
      simp only [policyLoop, hb] at h
      obtain ⟨a1, a2, a3⟩ := ih r0 h
      obtain ⟨b1, b2, b3⟩ := policyBody_frame env db report r0 p hb
      exact ⟨a1.trans b1, a2.trans b2, a3.trans b3⟩

theorem policyLoop_get?_other {σ : Type} (env : Env σ) (db : DB) (ps : List Policy)
    (report r1 : dispersionReport) (h : policyLoop env db report ps = some r1) (k : Int)
    (hk : ∀ p ∈ ps, p.Index ≠ k) :
    r1.ObjectReports.get? k = report.ObjectReports.get? k := by
  induction ps generalizing report with
  | nil =>
    simp only [policyLoop, Option.some.injEq] at h
    subst h
    rfl
  | cons p rest ih =>
    cases hb : policyBody env db report p with
    | none => simp [policyLoop, hb] at h
    | some r0 =>
      simp only [policyLoop, hb] at h
      rw [ih r0 h (fun q hq => hk q (List.mem_cons_of_mem _ hq)),
        policyBody_get?_ne env db report r0 p hb k (hk p (List.mem_cons_self _ _))]

theorem policyLoop_get?_mem {σ : Type} (env : Env σ) (db : DB) (ps : List Policy)
    (report r1 : dispersionReport) (h : policyLoop env db report ps = some r1)
    (hnd : (ps.map Policy.Index).Nodup) (p : Policy) (hp : p ∈ ps) :
    r1.ObjectReports.get? p.Index =
      if (db.processPass "dispersion scan" "object" p.Index).err = none then
        some (objectReportOf env db p)
      else report.ObjectReports.get? p.Index := by
  induction ps generalizing report with
  | nil => simp at hp
  | cons q rest ih =>
    cases hb : policyBody env db report q with
    | none => simp [policyLoop, hb] at h
    | some r0 =>
      simp only [policyLoop, hb] at h
      simp only [List.map_cons, List.nodup_cons, List.mem_map, not_exists, not_and] at hnd
      rcases List.mem_cons.mp hp with hpq | hpr
      · subst hpq
        rw [policyLoop_get?_other env db rest r0 r1 h p.Index (fun x hx => hnd.1 x hx),
          policyBody_get?_self env db report r0 p hb]
      · rw [ih r0 h hnd.2 hpr]
        have hne : q.Index ≠ p.Index := fun he => hnd.1 p hpr he.symm
        rw [policyBody_get?_ne env db report r0 q hb p.Index hne]

theorem policyLoop_isSome {σ : Type} (env : Env σ) (db : DB) (ps : List Policy)
    (report : dispersionReport)
    (hk : ∀ p ∈ ps, EntriesKnown (env.getRing "object" p.Index)
      (db.queuedReplications "object" p.Index "dispersion").1) :
    ∃ r1, policyLoop env db report ps = some r1 := by
  induction ps generalizing report with
  | nil => exact ⟨report, rfl⟩
  | cons p rest ih =>
    obtain ⟨r0, hr0⟩ := policyBody_isSome env db report p (hk p (List.mem_cons_self _ _))
    simp only [policyLoop, hr0]
    exact ih r0 (fun q hq => hk q (List.mem_cons_of_mem _ hq))

/-! ### The container section and the whole function -/

theorem containerSection_flags {σ : Type} (env : Env σ) (db : DB) (report r1 : dispersionReport)
    (h : containerSection env db report = some r1) :
    (r1.Errors = [] ∧ r1.Pass = true) ↔
      (report.Errors = [] ∧ report.Pass = true ∧ QueriesOk db "container" 0
        ∧ BacklogEmpty db "container" 0) := by
  unfold containerSection at h
  simp only [backlogLoop_eq] at h
  unfold QueriesOk BacklogEmpty
  cases h4 : (db.queuedReplications "container" 0 "dispersion").2 with
  | some e =>
    simp only [h4, Option.some.injEq] at h
    subst h
    simp [dispersionReport.appendError]
  | none =>
    simp only [h4] at h
    cases h5 : backlogParts (env.getRing "container" 0) []
        (db.queuedReplications "container" 0 "dispersion").1 with
    | none => simp [h5, newInnerReport] at h
    | some m =>
      simp [h5, newInnerReport] at h
      subst h
      simp [noteError_Errors_nil]
      tauto

theorem containerSection_report {σ : Type} (env : Env σ) (db : DB) (report r1 : dispersionReport)
    (h : containerSection env db report = some r1) :
    r1.ContainerReport = some (containerReportOf env db)
      ∧ r1.ObjectReports = report.ObjectReports := by
  unfold containerSection at h
  simp only [backlogLoop_eq] at h
  cases h4 : (db.queuedReplications "container" 0 "dispersion").2 with
  | some e =>
    simp only [h4, Option.some.injEq] at h
    subst h
    simp [dispersionReport.appendError, containerReportOf, h4, normalizeInit, newInnerReport]
    split <;> rfl
  | none =>
    simp only [h4] at h
    cases h5 : backlogParts (env.getRing "container" 0) []
        (db.queuedReplications "container" 0 "dispersion").1 with
    | none => simp [h5, newInnerReport] at h
    | some m =>
      simp [h5, newInnerReport] at h
      subst h
      simp [containerReportOf, h4, h5, normalizeInit, newInnerReport]

theorem containerSection_isSome {σ : Type} (env : Env σ) (db : DB) (report : dispersionReport)
    (hk : EntriesKnown (env.getRing "container" 0)
      (db.queuedReplications "container" 0 "dispersion").1) :
    ∃ r1, containerSection env db report = some r1 := by
  obtain ⟨m, hm⟩ := backlogParts_isSome _ _ [] hk
  unfold containerSection
  simp only [backlogLoop_eq]
  cases h4 : (db.queuedReplications "container" 0 "dispersion").2 with
  | some e => exact ⟨_, rfl⟩
  | none => simp [hm, newInnerReport]

theorem finish_Pass (report : dispersionReport) :
    (finish report).Pass = true ↔ (report.Errors = [] ∧ report.Pass = true) := by
  unfold finish
  cases hE : report.Errors with
  | nil => simp [hE]
  | cons a l => simp [hE]

theorem finish_fields (report : dispersionReport) :
    (finish report).Errors = report.Errors ∧ (finish report).ContainerReport = report.ContainerReport
      ∧ (finish report).ObjectReports = report.ObjectReports := by
  unfold finish
  split <;> simp

theorem getDispersionReport_ok {σ : Type} (env : Env σ) (conf : σ) (db : DB)
    (hc : env.getAndrewdConf = .ok conf) (hd : env.newDB conf = .ok db) :
    getDispersionReport env =
      ((containerSection env db (initialReport env.now)).bind (policySection env db)).map finish := by
  unfold getDispersionReport
  simp only [hc, hd, initialReport]
  cases containerSection env db _ with
  | none => rfl
  | some r1 =>
    simp only [Option.some_bind]
    cases policySection env db r1 <;> rfl

/-! ### Claims C1 and C2: the pass flag -/

theorem policySection_flags {σ : Type} (env : Env σ) (db : DB)
    (report r1 : dispersionReport) (h : policySection env db report = some r1) :
    (r1.Errors = [] ∧ r1.Pass = true) ↔
      (report.Errors = [] ∧ report.Pass = true ∧ env.GetPolicies.2 = none ∧
        ∀ p ∈ env.GetPolicies.1, QueriesOk db "object" p.Index ∧ BacklogEmpty db "object" p.Index) := by
  unfold policySection at h
  cases hg : env.GetPolicies.2 with
  | some e =>
    simp only [hg, Option.some.injEq] at h
    subst h
    simp [dispersionReport.appendError]
  | none =>
    simp only [hg] at h
    have := policyLoop_flags env db _ report r1 h
    simp only [true_and]
    exact this

theorem policySection_frame {σ : Type} (env : Env σ) (db : DB)
    (report r1 : dispersionReport) (h : policySection env db report = some r1) :
    r1.ContainerReport = report.ContainerReport := by
  unfold policySection at h
  cases hg : env.GetPolicies.2 with
  | some e =>
    simp only [hg, Option.some.injEq] at h
    subst h
    rfl
  | none =>
    simp only [hg] at h
    exact (policyLoop_frame env db _ report r1 h).1

theorem policySection_isSome {σ : Type} (env : Env σ) (db : DB) (report : dispersionReport)
    (hk : ∀ p ∈ env.GetPolicies.1, EntriesKnown (env.getRing "object" p.Index)
      (db.queuedReplications "object" p.Index "dispersion").1) :
    ∃ r1, policySection env db report = some r1 := by
  unfold policySection
  cases hg : env.GetPolicies.2 with
  | some e => exact ⟨_, rfl⟩
  | none => exact policyLoop_isSome env db _ report hk

theorem getDispersionReport_isSome {σ : Type} (env : Env σ) (conf : σ) (db : DB)
    (hc : env.getAndrewdConf = .ok conf) (hd : env.newDB conf = .ok db)
    (hk : BacklogsKnown env db) :
    ∃ r, getDispersionReport env = some r := by
  rw [getDispersionReport_ok env conf db hc hd]
  obtain ⟨r1, h1⟩ := containerSection_isSome env db (initialReport env.now) hk.1
  obtain ⟨r2, h2⟩ := policySection_isSome env db r1 hk.2
  exact ⟨finish r2, by simp [h1, h2]⟩

theorem getDispersionReport_split {σ : Type} (env : Env σ) (conf : σ) (db : DB)
    (hc : env.getAndrewdConf = .ok conf) (hd : env.newDB conf = .ok db)
    (r : dispersionReport) (h : getDispersionReport env = some r) :
    ∃ r1 r2, containerSection env db (initialReport env.now) = some r1 ∧
      policySection env db r1 = some r2 ∧ r = finish r2 := by
  rw [getDispersionReport_ok env conf db hc hd] at h
  cases h1 : containerSection env db (initialReport env.now) with
  | none => simp [h1] at h
  | some r1 =>
    cases h2 : policySection env db r1 with
    | none => simp [h1, h2] at h
    | some r2 =>
      simp [h1, h2] at h
      exact ⟨r1, r2, rfl, h2, h.symm⟩

theorem getDispersionReport_pass_iff {σ : Type} (env : Env σ) (conf : σ) (db : DB)
    (hc : env.getAndrewdConf = .ok conf) (hd : env.newDB conf = .ok db)
    (r : dispersionReport) (h : getDispersionReport env = some r) :
    r.Pass = true ↔ NoQueryError env db ∧ BacklogsEmpty env db := by
  obtain ⟨r1, r2, h1, h2, rfl⟩ := getDispersionReport_split env conf db hc hd r h
  have e1 := containerSection_flags env db _ r1 h1
  have e2 := policySection_flags env db r1 r2 h2
  rw [finish_Pass]
  unfold NoQueryError BacklogsEmpty
  simp only [initialReport, true_and] at e1
  constructor
  · intro hx
    obtain ⟨hr1e, hr1p, c, d⟩ := e2.mp hx
    obtain ⟨a, b⟩ := e1.mp ⟨hr1e, hr1p⟩
    exact ⟨⟨c, a, fun p hp => (d p hp).1⟩, b, fun p hp => (d p hp).2⟩
  · rintro ⟨⟨c, a, d1⟩, b, d2⟩
    obtain ⟨x1, x2⟩ := e1.mpr ⟨a, b⟩
    exact e2.mpr ⟨x1, x2, c, fun p hp => ⟨d1 p hp, d2 p hp⟩⟩

theorem objectReportOf_Partitions_nil {σ : Type} (env : Env σ) (db : DB) (p : Policy)
    (he : BacklogEmpty db "object" p.Index) : (objectReportOf env db p).Partitions = [] := by
  unfold BacklogEmpty at he
  unfold objectReportOf
  simp only [he]
  cases (db.queuedReplications "object" p.Index "dispersion").2 <;> simp [backlogParts]

theorem containerReportOf_Partitions_nil {σ : Type} (env : Env σ) (db : DB)
    (he : BacklogEmpty db "container" 0) : (containerReportOf env db).Partitions = [] := by
  unfold BacklogEmpty at he
  unfold containerReportOf
  simp only [he]
  cases (db.queuedReplications "container" 0 "dispersion").2 <;> simp [backlogParts]

theorem policyLoop_parts_nil {σ : Type} (env : Env σ) (db : DB) (ps : List Policy)
    (report r1 : dispersionReport) (h : policyLoop env db report ps = some r1)
    (he : ∀ p ∈ ps, BacklogEmpty db "object" p.Index)
    (h0 : ∀ k sub, report.ObjectReports.get? k = some sub → sub.Partitions = []) :
    ∀ k sub, r1.ObjectReports.get? k = some sub → sub.Partitions = [] := by
  induction ps generalizing report with
  | nil =>
    simp only [policyLoop, Option.some.injEq] at h
    subst h
    exact h0
  | cons p rest ih =>
    cases hb : policyBody env db report p with
    | none => simp [policyLoop, hb] at h
    | some r0 =>
      simp only [policyLoop, hb] at h
      refine ih r0 h (fun q hq => he q (List.mem_cons_of_mem _ hq)) ?_
      intro k sub hk
      by_cases hkp : p.Index = k
      · subst hkp
        rw [policyBody_get?_self env db report r0 p hb] at hk
        split at hk
        · simp only [Option.some.injEq] at hk
          subst hk
          exact objectReportOf_Partitions_nil env db p (he p (List.mem_cons_self _ _))
        · exact h0 _ _ hk
      · rw [policyBody_get?_ne env db report r0 p hb k hkp] at hk
        exact h0 _ _ hk

/-- C1 (refuted on the code): the claim says that a report with a non-empty Errors list
has Pass false. When the configuration loader fails, `getDispersionReport` returns
at line 129 a report whose Errors list holds the loader's message and whose Pass flag
is still true. -/
theorem C1_conf_error_keeps_pass :
    getDispersionReport confErrorEnv =
      some { Name := "Dispersion Report", Time := ⟨1000⟩, Pass := true,
             Errors := ["no andrewd config"], IssueCount := 0, ContainerReport := none,
             ObjectReports := [] } := by
  rfl

/-- The same early return after a failure of the database opener, line 134. -/
theorem getDispersionReport_db_error_keeps_pass :
    (getDispersionReport dbErrorEnv).map (fun r => (r.Errors, r.Pass))
      = some (["cannot open database"], true) := by
  rfl

/-- Past the two early returns the final check of lines 212-214 applies: a returned
report with a non-empty Errors list has Pass false. -/
theorem getDispersionReport_errors_fail {σ : Type} (env : Env σ) (conf : σ) (db : DB)
    (hc : env.getAndrewdConf = .ok conf) (hd : env.newDB conf = .ok db)
    (r : dispersionReport) (h : getDispersionReport env = some r) (he : r.Errors ≠ []) :
    r.Pass = false := by
  obtain ⟨r1, r2, _, _, rfl⟩ := getDispersionReport_split env conf db hc hd r h
  have hf := (finish_fields r2).1
  rw [hf] at he
  cases hp : (finish r2).Pass with
  | false => rfl
  | true => exact absurd ((finish_Pass r2).mp hp).1 he

/-- C2: with the configuration and the database obtained without error, (1) the Pass
flag of every returned report is true if and only if no store or policy-registry
query returned an error and the "dispersion" backlog of the container ring and of
every policy's object ring is empty; (2) with no query error and empty backlogs a
report is returned with Pass true, an empty Errors list and empty missing-partition
maps in the container sub-report and in every object sub-report; (3) a report is
returned whenever every backlog entry targets a present device. -/
theorem C2_pass_iff_clean {σ : Type} (env : Env σ) (conf : σ) (db : DB)
    (hc : env.getAndrewdConf = .ok conf) (hd : env.newDB conf = .ok db) :
    (∀ r, getDispersionReport env = some r →
      (r.Pass = true ↔ NoQueryError env db ∧ BacklogsEmpty env db))
    ∧ (NoQueryError env db → BacklogsEmpty env db →
        ∃ r c, getDispersionReport env = some r ∧ r.Pass = true ∧ r.Errors = []
          ∧ r.ContainerReport = some c ∧ c.Partitions = []
          ∧ ∀ k sub, r.ObjectReports.get? k = some sub → sub.Partitions = [])
    ∧ (BacklogsKnown env db → ∃ r, getDispersionReport env = some r) := by
  refine ⟨fun r h => getDispersionReport_pass_iff env conf db hc hd r h, ?_,
    fun hk => getDispersionReport_isSome env conf db hc hd hk⟩
  intro hq he
  have hk : BacklogsKnown env db := by
    refine ⟨?_, fun p hp => ?_⟩
    · have := he.1
      unfold BacklogEmpty at this
      rw [this]
      intro qr hqr
      simp at hqr
    · have := he.2 p hp
      unfold BacklogEmpty at this
      rw [this]
      intro qr hqr
      simp at hqr
  obtain ⟨r, hr⟩ := getDispersionReport_isSome env conf db hc hd hk
  have hpass := (getDispersionReport_pass_iff env conf db hc hd r hr).mpr ⟨hq, he⟩
  obtain ⟨r1, r2, h1, h2, rfl⟩ := getDispersionReport_split env conf db hc hd r hr
  obtain ⟨f1, f2, f3⟩ := finish_fields r2
  have hc1 := containerSection_report env db _ r1 h1
  refine ⟨finish r2, containerReportOf env db, hr, hpass, ?_, ?_,
    containerReportOf_Partitions_nil env db he.1, ?_⟩
  · rw [f1]
    exact ((finish_Pass r2).mp hpass).1
  · rw [f2, policySection_frame env db r1 r2 h2]
    exact hc1.1
  · rw [f3]
    unfold policySection at h2
    simp only [hq.1] at h2
    refine policyLoop_parts_nil env db _ r1 r2 h2 he.2 ?_
    intro k sub hks
    rw [hc1.2] at hks
    simp [initialReport, GoMap.get?] at hks

/-- Instance of C2 at the quiet store with the policies 0 and 2: the report passes. -/
theorem C2_pass_iff_clean_witness :
    (getDispersionReport (sampleEnv quietDB [⟨0, "gold"⟩, ⟨2, "silver"⟩])).map
      (fun r => (r.Pass, r.Errors)) = some (true, []) := by
  obtain ⟨r, c, h, hp, he, _⟩ :=
    (C2_pass_iff_clean (sampleEnv quietDB [⟨0, "gold"⟩, ⟨2, "silver"⟩]) () quietDB rfl rfl).2.1
      (by simp [NoQueryError, QueriesOk, quietDB, sampleEnv])
      (by simp [BacklogsEmpty, BacklogEmpty, quietDB, sampleEnv])
  rw [h]
  simp [hp, he]

/-! ### Contents of the stored sub-reports -/

theorem resolveDevice_eq_some_iff (devs : List (Option Device)) (id : Int) (dev : Device) :
    resolveDevice devs id = some dev ↔ 0 ≤ id ∧ devs.get? id.toNat = some (some dev) := by
  unfold resolveDevice
  by_cases h : id < 0
  · simp only [h, if_true]
    constructor
    · intro hn
      cases hn
    · rintro ⟨h0, _⟩
      omega
  · simp only [h, if_false, Option.join_eq_some]
    constructor
    · intro hs
      exact ⟨by omega, hs⟩
    · rintro ⟨_, hs⟩
      exact hs

theorem entriesKnown_of_present (ring : Ring) (qrs : List queuedReplication)
    (h : EntriesPresent ring qrs) : EntriesKnown ring qrs := by
  intro qr hqr
  obtain ⟨dev, hdev⟩ := h qr hqr
  exact ⟨dev, (resolveDevice_eq_some_iff _ _ _).mpr hdev⟩

theorem backlogsKnown_of_present {σ : Type} (env : Env σ) (db : DB)
    (h : BacklogsPresent env db) : BacklogsKnown env db :=
  ⟨entriesKnown_of_present _ _ h.1, fun p hp => entriesKnown_of_present _ _ (h.2 p hp)⟩

theorem forall₂_recordOf (ring : Ring) (l : List queuedReplication) (hk : EntriesKnown ring l) :
    List.Forall₂ (RecordOf ring) l
      (l.filterMap (fun qr => (resolveDevice ring.AllDevices qr.toDeviceID).map (missingRecord qr))) := by
  induction l with
  | nil => exact List.Forall₂.nil
  | cons qr rest ih =>
    obtain ⟨dev, hdev⟩ := hk qr (List.mem_cons_self _ _)
    simp only [List.filterMap_cons, hdev, Option.map_some']
    refine List.Forall₂.cons
      ⟨dev, (resolveDevice_eq_some_iff _ _ _).mp hdev, rfl, rfl, rfl⟩ (ih ?_)
    exact fun q hq => hk q (List.mem_cons_of_mem _ hq)

theorem backlogParts_records (ring : Ring) (qrs : List queuedReplication)
    (hk : EntriesKnown ring qrs) :
    RecordsBacklog ring qrs ((backlogParts ring [] qrs).getD []) := by
  obtain ⟨m, hm⟩ := backlogParts_isSome ring qrs [] hk
  intro p
  have hget := backlogParts_get? ring qrs [] m hm p
  have hsub : EntriesKnown ring (qrs.filter (fun qr => qr.partition = p)) :=
    fun q hq => hk q (List.mem_of_mem_filter hq)
  have hrec := forall₂_recordOf ring _ hsub
  simp only [hm, Option.getD_some]
  by_cases hf : qrs.filter (fun qr => qr.partition = p) = []
  · rw [hget, if_pos hf]
    constructor
    · simp only [GoMap.get?, Option.isSome_none, Bool.false_eq_true, false_iff, not_exists,
        not_and]
      intro qr hqr hp
      have : qr ∈ qrs.filter (fun qr => qr.partition = p) := by
        simp [List.mem_filter, hqr, hp]
      rw [hf] at this
      simp at this
    · rw [hf]
      simp [GoMap.get?]
  · rw [hget, if_neg hf]
    constructor
    · simp only [Option.isSome_some, true_iff]
      obtain ⟨qr, hqr⟩ := List.exists_mem_of_ne_nil _ hf
      rw [List.mem_filter] at hqr
      exact ⟨qr, hqr.1, by simpa using hqr.2⟩
    · simpa [GoMap.get?, recordsFor] using hrec

theorem policyLoop_get?_some {σ : Type} (env : Env σ) (db : DB) (ps : List Policy)
    (report r1 : dispersionReport) (h : policyLoop env db report ps = some r1) (k : Int)
    (sub : innerDispersionReport) (hs : r1.ObjectReports.get? k = some sub) :
    (∃ q ∈ ps, q.Index = k ∧ (db.processPass "dispersion scan" "object" k).err = none
        ∧ sub = objectReportOf env db q)
      ∨ report.ObjectReports.get? k = some sub := by
  induction ps generalizing report with
  | nil =>
    simp only [policyLoop, Option.some.injEq] at h
    subst h
    exact Or.inr hs
  | cons p rest ih =>
    cases hb : policyBody env db report p with
    | none => simp [policyLoop, hb] at h
    | some r0 =>
      simp only [policyLoop, hb] at h
      rcases ih r0 h with ⟨q, hq, hqk, hpp, hsub⟩ | h0
      · exact Or.inl ⟨q, List.mem_cons_of_mem _ hq, hqk, hpp, hsub⟩
      · by_cases hkp : p.Index = k
        · subst hkp
          rw [policyBody_get?_self env db report r0 p hb] at h0
          split at h0
          · rename_i hok
            simp only [Option.some.injEq] at h0
            exact Or.inl ⟨p, List.mem_cons_self _ _, rfl, hok, h0.symm⟩
          · exact Or.inr h0
        · rw [policyBody_get?_ne env db report r0 p hb k hkp] at h0
          exact Or.inr h0

theorem policyLoop_get?_last {σ : Type} (env : Env σ) (db : DB) (ps : List Policy)
    (report r1 : dispersionReport) (h : policyLoop env db report ps = some r1) (p : Policy)
    (hp : p ∈ ps) (hok : (db.processPass "dispersion scan" "object" p.Index).err = none) :
    ∃ q ∈ ps, q.Index = p.Index ∧ r1.ObjectReports.get? p.Index = some (objectReportOf env db q) := by
  induction ps generalizing report p with
  | nil => simp at hp
  | cons q0 rest ih =>
    cases hb : policyBody env db report q0 with
    | none => simp [policyLoop, hb] at h
    | some r0 =>
      simp only [policyLoop, hb] at h
      by_cases hex : ∃ q ∈ rest, q.Index = p.Index
      · obtain ⟨q, hq, hqi⟩ := hex
        have hokq : (db.processPass "dispersion scan" "object" q.Index).err = none := by
          rw [hqi]; exact hok
        obtain ⟨q1, hq1, hq1i, hget⟩ := ih r0 h q hq hokq
        rw [hqi] at hq1i hget
        exact ⟨q1, List.mem_cons_of_mem _ hq1, hq1i, hget⟩
      · have hnone : ∀ q ∈ rest, q.Index ≠ p.Index := fun q hq he => hex ⟨q, hq, he⟩
        have hp0 : q0.Index = p.Index := by
          rcases List.mem_cons.mp hp with hpq | hpr
          · rw [hpq]
          · exact absurd rfl (hnone p hpr)
        refine ⟨q0, List.mem_cons_self _ _, hp0, ?_⟩
        rw [policyLoop_get?_other env db rest r0 r1 h p.Index hnone, ← hp0,
          policyBody_get?_self env db report r0 q0 hb, if_pos (by rw [hp0]; exact hok)]

theorem getDispersionReport_container {σ : Type} (env : Env σ) (conf : σ) (db : DB)
    (hc : env.getAndrewdConf = .ok conf) (hd : env.newDB conf = .ok db)
    (r : dispersionReport) (h : getDispersionReport env = some r) :
    r.ContainerReport = some (containerReportOf env db) := by
  obtain ⟨r1, r2, h1, h2, rfl⟩ := getDispersionReport_split env conf db hc hd r h
  rw [(finish_fields r2).2.1, policySection_frame env db r1 r2 h2]
  exact (containerSection_report env db _ r1 h1).1

theorem getDispersionReport_objects {σ : Type} (env : Env σ) (conf : σ) (db : DB)
    (hc : env.getAndrewdConf = .ok conf) (hd : env.newDB conf = .ok db)
    (r : dispersionReport) (h : getDispersionReport env = some r) :
    (env.GetPolicies.2 = none →
      ∃ r1 r2, r1.ObjectReports = [] ∧ policyLoop env db r1 env.GetPolicies.1 = some r2
        ∧ r.ObjectReports = r2.ObjectReports)
    ∧ (env.GetPolicies.2 ≠ none → r.ObjectReports = []) := by
  obtain ⟨r1, r2, h1, h2, rfl⟩ := getDispersionReport_split env conf db hc hd r h
  have h0 : r1.ObjectReports = [] := (containerSection_report env db _ r1 h1).2
  unfold policySection at h2
  constructor
  · intro hg
    simp only [hg] at h2
    exact ⟨r1, r2, h0, h2, (finish_fields r2).2.2⟩
  · intro hg
    cases hg2 : env.GetPolicies.2 with
    | none => exact absurd hg2 hg
    | some e =>
      simp only [hg2, Option.some.injEq] at h2
      subst h2
      rw [(finish_fields _).2.2]
      exact h0

/-! ### Claim C3: the missing-partition maps -/

theorem objectReportOf_Partitions {σ : Type} (env : Env σ) (db : DB) (q : Policy) :
    (objectReportOf env db q).Partitions =
      match (db.queuedReplications "object" q.Index "dispersion").2 with
      | some _ => []
      | none => (backlogParts (env.getRing "object" q.Index) []
          (db.queuedReplications "object" q.Index "dispersion").1).getD [] := rfl

theorem endsWithInitMarker_iff (progress : String) :
    EndsWithInitMarker progress ↔ HasSuffix progress initSuffix = true := by
  unfold EndsWithInitMarker HasSuffix initSuffix
  rw [List.isSuffixOf_iff_suffix]
  constructor
  · rintro ⟨pre, hpre⟩
    exact ⟨pre.data, by rw [hpre]; rfl⟩
  · rintro ⟨t, ht⟩
    refine ⟨String.mk t, String.ext ?_⟩
    rw [String.data_append]
    exact ht.symm

theorem normalizeInit_times (pp : PassResult) (r : innerDispersionReport)
    (hs : r.Start = pp.start) (hc : r.Complete = pp.complete) :
    TimesFollow pp (normalizeInit pp.progress r) := by
  unfold TimesFollow normalizeInit
  rw [endsWithInitMarker_iff]
  by_cases hsuf : HasSuffix pp.progress initSuffix = true
  · rw [if_pos hsuf]
    exact ⟨fun _ => ⟨rfl, rfl⟩, fun hn => absurd hsuf hn⟩
  · rw [if_neg hsuf]
    exact ⟨fun hy => absurd hy hsuf, fun _ => ⟨hs, hc⟩⟩

theorem objectReportOf_times {σ : Type} (env : Env σ) (db : DB) (q : Policy) :
    TimesFollow (db.processPass "dispersion scan" "object" q.Index) (objectReportOf env db q) := by
  have h := normalizeInit_times (db.processPass "dispersion scan" "object" q.Index)
    { newInnerReport (env.getRing "object" q.Index) with
      Start := (db.processPass "dispersion scan" "object" q.Index).start,
      Complete := (db.processPass "dispersion scan" "object" q.Index).complete } rfl rfl
  exact h

theorem containerReportOf_times {σ : Type} (env : Env σ) (db : DB) :
    TimesFollow (db.processPass "dispersion scan" "container" 0) (containerReportOf env db) := by
  have h := normalizeInit_times (db.processPass "dispersion scan" "container" 0)
    { newInnerReport (env.getRing "container" 0) with
      Start := (db.processPass "dispersion scan" "container" 0).start,
      Complete := (db.processPass "dispersion scan" "container" 0).complete } rfl rfl
  exact h

theorem objectReportOf_congr {σ : Type} (env1 env2 : Env σ) (db1 db2 : DB) (j : Policy)
    (hring : env1.getRing "object" j.Index = env2.getRing "object" j.Index)
    (hpp : db1.processPass "dispersion scan" "object" j.Index
      = db2.processPass "dispersion scan" "object" j.Index)
    (hsv : db1.countOfServicesWithErrors "object" j.Index
      = db2.countOfServicesWithErrors "object" j.Index)
    (hdv : db1.countOfDevicesWithErrors "object" j.Index
      = db2.countOfDevicesWithErrors "object" j.Index)
    (hq : db1.queuedReplications "object" j.Index "dispersion"
      = db2.queuedReplications "object" j.Index "dispersion") :
    objectReportOf env1 db1 j = objectReportOf env2 db2 j := by
  unfold objectReportOf
  simp only [hring, hpp, hsv, hdv, hq]

/-- C3: with the configuration and the database obtained without error and every
backlog entry having a `toDeviceID` that indexes a present device of its ring's
`AllDevices` list, a report is returned in which (1) the container sub-report's
Partitions map records the container backlog returned without error and (2) for
every policy whose `processPass` and `queuedReplications` returned no error, the
object sub-report stored under the policy's index records that policy's backlog: a
key `p` is present exactly when some entry names partition `p`, and the list under
`p` holds one record per such entry, in backlog order, with the entry's time,
`<ip>:<port>` of the device found in `AllDevices` at index `toDeviceID`, and that
device's name. -/
theorem C3_partitions_record_backlog {σ : Type} (env : Env σ) (conf : σ) (db : DB)
    (hc : env.getAndrewdConf = .ok conf) (hd : env.newDB conf = .ok db)
    (hk : BacklogsPresent env db) :
    ∃ r c, getDispersionReport env = some r ∧ r.ContainerReport = some c ∧
      ((db.queuedReplications "container" 0 "dispersion").2 = none →
        RecordsBacklog (env.getRing "container" 0)
          (db.queuedReplications "container" 0 "dispersion").1 c.Partitions) ∧
      (env.GetPolicies.2 = none → ∀ p ∈ env.GetPolicies.1,
        (db.processPass "dispersion scan" "object" p.Index).err = none →
        (db.queuedReplications "object" p.Index "dispersion").2 = none →
        ∃ sub, r.ObjectReports.get? p.Index = some sub ∧
          RecordsBacklog (env.getRing "object" p.Index)
            (db.queuedReplications "object" p.Index "dispersion").1 sub.Partitions) := by
  have hkn := backlogsKnown_of_present env db hk
  obtain ⟨r, hr⟩ := getDispersionReport_isSome env conf db hc hd hkn
  refine ⟨r, containerReportOf env db, hr, getDispersionReport_container env conf db hc hd r hr,
    ?_, ?_⟩
  · intro hq
    have := backlogParts_records (env.getRing "container" 0) _ hkn.1
    simpa [containerReportOf, hq] using this
  · intro hg p hp hpp hq
    obtain ⟨r1, r2, h0, hloop, hobj⟩ := (getDispersionReport_objects env conf db hc hd r hr).1 hg
    obtain ⟨q, _, hqi, hget⟩ := policyLoop_get?_last env db _ r1 r2 hloop p hp hpp
    refine ⟨objectReportOf env db q, by rw [hobj]; exact hget, ?_⟩
    rw [objectReportOf_Partitions, hqi, hq]
    exact backlogParts_records (env.getRing "object" p.Index) _ (hkn.2 p hp)

theorem backlogsKnown_backlogDB : BacklogsKnown (sampleEnv backlogDB [⟨0, "gold"⟩]) backlogDB := by
  constructor
  · intro qr hqr
    simp [backlogDB, quietDB] at hqr
    subst hqr
    exact ⟨_, rfl⟩
  · intro p _ qr hqr
    simp [backlogDB, quietDB] at hqr

theorem backlogsPresent_backlogDB :
    BacklogsPresent (sampleEnv backlogDB [⟨0, "gold"⟩]) backlogDB := by
  constructor
  · intro qr hqr
    simp [backlogDB, quietDB] at hqr
    subst hqr
    exact ⟨⟨"10.0.0.1", 6001, "sda"⟩, by decide, rfl⟩
  · intro p _ qr hqr
    simp [backlogDB, quietDB] at hqr

/-- The report for one container backlog entry for partition 7 targeting device 0:
Pass is false and partition 7 carries the record with the label of device 0. -/
theorem getDispersionReport_backlog_example :
    (getDispersionReport (sampleEnv backlogDB [⟨0, "gold"⟩])).map
        (fun r => (r.Pass, r.ContainerReport.map (fun c => c.Partitions)))
      = some (false, some [(7, [⟨⟨300⟩, "10.0.0.1:6001", "sda"⟩])]) := by
  rfl

/-- Instance of C3: one container backlog entry for partition 7, of time 300, targeting
device 0 of the device list `[10.0.0.1:6001 sda, empty, 10.0.0.2:6002 sdb]`. Under
partition 7 the map holds exactly the record with that time and the label
`10.0.0.1:6001` and `sda`; partition 3, which no entry names, is no key. -/
theorem C3_partitions_record_backlog_witness :
    ((getDispersionReport (sampleEnv backlogDB [⟨0, "gold"⟩])).bind
        (fun r => r.ContainerReport)).map
        (fun c => (c.Partitions.get? 7, c.Partitions.get? 3))
      = some (some [⟨⟨300⟩, "10.0.0.1:6001", "sda"⟩], none) := by
  obtain ⟨r, c, h, hc, hcont, _⟩ :=
    C3_partitions_record_backlog (sampleEnv backlogDB [⟨0, "gold"⟩]) () backlogDB rfl rfl
      backlogsPresent_backlogDB
  have hrec := hcont rfl
  obtain ⟨h7key, h7list⟩ := hrec 7
  obtain ⟨h3key, _⟩ := hrec 3
  have hf : ((backlogDB.queuedReplications "container" 0 "dispersion").1.filter
      (fun qr => qr.partition = 7)) = [⟨7, 0, ⟨300⟩⟩] := by decide
  rw [hf, List.forall₂_cons_left_iff] at h7list
  obtain ⟨rec, rest, ⟨dev, ⟨_, hdev⟩, ht, hs, hdv⟩, hrest, hl⟩ := h7list
  rw [List.forall₂_nil_left_iff] at hrest
  subst hrest
  have hdev0 : dev = ⟨"10.0.0.1", 6001, "sda"⟩ := by
    have : (sampleEnv backlogDB [⟨0, "gold"⟩]).getRing "container" 0 = sampleRing := rfl
    rw [this] at hdev
    simp [sampleRing] at hdev
    exact hdev.symm
  subst hdev0
  have hrecEq : rec = ⟨⟨300⟩, "10.0.0.1:6001", "sda"⟩ := by
    cases rec
    simp only at ht hs hdv
    subst ht
    subst hs
    subst hdv
    rfl
  subst hrecEq
  have h7 : c.Partitions.get? 7 = some [⟨⟨300⟩, "10.0.0.1:6001", "sda"⟩] := by
    cases hg : c.Partitions.get? 7 with
    | none =>
      rw [hg] at hl
      simp at hl
    | some l =>
      rw [hg] at hl
      simp only [Option.getD_some] at hl
      rw [hl]
  have h3 : c.Partitions.get? 3 = none := by
    cases hg : c.Partitions.get? 3 with
    | none => rfl
    | some l =>
      rw [hg] at h3key
      obtain ⟨qr, hqr, hp⟩ := h3key.mp rfl
      simp [backlogDB, quietDB] at hqr
      subst hqr
      simp at hp
  rw [h]
  simp [hc, h7, h3]

/-! ### Claims C6 and C7: isolation of the policies and the scan times -/

/-- C6: (1) for two runs whose policy lists have distinct indices and both contain
policy `j`, whose rings and store answers agree for policy `j` and are arbitrary
otherwise (query errors for the container ring and for the other policies included),
and whose backlog entries target present devices, both runs return a report and the
entry stored for `j` in ObjectReports (absent, or the sub-report with all its fields)
is the same in both; (2) every returned report holds a container sub-report, whatever
the policy registry and the policy queries return. -/
theorem C6_policy_isolation {σ : Type} :
    (∀ (env1 env2 : Env σ) (conf1 conf2 : σ) (db1 db2 : DB) (j : Policy),
      env1.getAndrewdConf = .ok conf1 → env1.newDB conf1 = .ok db1 →
      env2.getAndrewdConf = .ok conf2 → env2.newDB conf2 = .ok db2 →
      env1.GetPolicies.2 = none → env2.GetPolicies.2 = none →
      (env1.GetPolicies.1.map Policy.Index).Nodup →
      (env2.GetPolicies.1.map Policy.Index).Nodup →
      j ∈ env1.GetPolicies.1 → j ∈ env2.GetPolicies.1 →
      env1.getRing "object" j.Index = env2.getRing "object" j.Index →
      db1.processPass "dispersion scan" "object" j.Index
        = db2.processPass "dispersion scan" "object" j.Index →
      db1.countOfServicesWithErrors "object" j.Index
        = db2.countOfServicesWithErrors "object" j.Index →
      db1.countOfDevicesWithErrors "object" j.Index
        = db2.countOfDevicesWithErrors "object" j.Index →
      db1.queuedReplications "object" j.Index "dispersion"
        = db2.queuedReplications "object" j.Index "dispersion" →
      BacklogsKnown env1 db1 → BacklogsKnown env2 db2 →
      ∃ r1 r2, getDispersionReport env1 = some r1 ∧ getDispersionReport env2 = some r2 ∧
        r1.ObjectReports.get? j.Index = r2.ObjectReports.get? j.Index)
    ∧ (∀ (env : Env σ) (conf : σ) (db : DB),
      env.getAndrewdConf = .ok conf → env.newDB conf = .ok db →
      (∀ r, getDispersionReport env = some r → r.ContainerReport.isSome = true)
      ∧ (BacklogsKnown env db → ∃ r, getDispersionReport env = some r)) := by
  constructor
  · intro env1 env2 conf1 conf2 db1 db2 j hc1 hd1 hc2 hd2 hg1 hg2 hn1 hn2 hj1 hj2 hring hpp hsv
      hdv hq hk1 hk2
    obtain ⟨r1, hr1⟩ := getDispersionReport_isSome env1 conf1 db1 hc1 hd1 hk1
    obtain ⟨r2, hr2⟩ := getDispersionReport_isSome env2 conf2 db2 hc2 hd2 hk2
    refine ⟨r1, r2, hr1, hr2, ?_⟩
    obtain ⟨a1, a2, a0, aloop, aobj⟩ :=
      (getDispersionReport_objects env1 conf1 db1 hc1 hd1 r1 hr1).1 hg1
    obtain ⟨b1, b2, b0, bloop, bobj⟩ :=
      (getDispersionReport_objects env2 conf2 db2 hc2 hd2 r2 hr2).1 hg2
    rw [aobj, bobj, policyLoop_get?_mem env1 db1 _ a1 a2 aloop hn1 j hj1,
      policyLoop_get?_mem env2 db2 _ b1 b2 bloop hn2 j hj2, a0, b0, hpp,
      objectReportOf_congr env1 env2 db1 db2 j hring hpp hsv hdv hq]
  · intro env conf db hc hd
    refine ⟨fun r hr => ?_, fun hk => getDispersionReport_isSome env conf db hc hd hk⟩
    rw [getDispersionReport_container env conf db hc hd r hr]
    rfl

theorem backlogsKnown_noisyDB :
    BacklogsKnown (sampleEnv noisyDB [⟨0, "gold"⟩, ⟨2, "silver"⟩]) noisyDB := by
  constructor
  · intro qr hqr
    simp [noisyDB] at hqr
  · intro p hp qr hqr
    simp only [sampleEnv, List.mem_cons, List.mem_singleton, List.not_mem_nil, or_false] at hp
    rcases hp with rfl | rfl
    · simp [noisyDB] at hqr
    · simp [noisyDB] at hqr
      subst hqr
      exact ⟨_, rfl⟩

theorem backlogsKnown_calmDB :
    BacklogsKnown (sampleEnv calmDB [⟨0, "gold"⟩, ⟨2, "silver"⟩]) calmDB := by
  constructor
  · intro qr hqr
    simp [calmDB, quietDB] at hqr
  · intro p hp qr hqr
    simp only [sampleEnv, List.mem_cons, List.mem_singleton, List.not_mem_nil, or_false] at hp
    rcases hp with rfl | rfl
    · simp [calmDB, quietDB] at hqr
    · simp [calmDB, quietDB] at hqr
      subst hqr
      exact ⟨_, rfl⟩

/-- Instance of C6: the sub-report of policy 2 is the same whether the queries for the
container ring and for policy 0 fail or succeed. -/
theorem C6_policy_isolation_witness :
    (getDispersionReport (sampleEnv noisyDB [⟨0, "gold"⟩, ⟨2, "silver"⟩])).map
        (fun r => r.ObjectReports.get? 2)
      = (getDispersionReport (sampleEnv calmDB [⟨0, "gold"⟩, ⟨2, "silver"⟩])).map
        (fun r => r.ObjectReports.get? 2) := by
  obtain ⟨r1, r2, h1, h2, he⟩ :=
    (C6_policy_isolation (σ := Unit)).1 (sampleEnv noisyDB [⟨0, "gold"⟩, ⟨2, "silver"⟩])
      (sampleEnv calmDB [⟨0, "gold"⟩, ⟨2, "silver"⟩]) () () noisyDB calmDB ⟨2, "silver"⟩
      rfl rfl rfl rfl rfl rfl (by decide) (by decide) (by simp [sampleEnv]) (by simp [sampleEnv])
      rfl rfl rfl rfl rfl backlogsKnown_noisyDB backlogsKnown_calmDB
  rw [h1, h2]
  simp only [Option.map_some', Option.some.injEq]
  exact he

/-- C7: with the configuration and the database obtained without error, in every
returned report the container sub-report and every sub-report stored in ObjectReports
under an index `k` have Start and Complete both the zero time when the progress
marker that `processPass` returned for that ring is some text followed by
"-init does not yet exist", and equal to the start and completion times that
`processPass` returned when the marker does not end so; a report is returned whenever
every backlog entry has a `toDeviceID` that indexes a present device. -/
theorem C7_init_marker_resets_times {σ : Type} (env : Env σ) (conf : σ) (db : DB)
    (hc : env.getAndrewdConf = .ok conf) (hd : env.newDB conf = .ok db) :
    (∀ r, getDispersionReport env = some r →
      (∃ c, r.ContainerReport = some c ∧
        TimesFollow (db.processPass "dispersion scan" "container" 0) c) ∧
      (∀ k sub, r.ObjectReports.get? k = some sub →
        TimesFollow (db.processPass "dispersion scan" "object" k) sub))
    ∧ (BacklogsPresent env db → ∃ r, getDispersionReport env = some r) := by
  refine ⟨fun r hr => ⟨⟨containerReportOf env db,
    getDispersionReport_container env conf db hc hd r hr, containerReportOf_times env db⟩, ?_⟩,
    fun hk => getDispersionReport_isSome env conf db hc hd (backlogsKnown_of_present env db hk)⟩
  intro k sub hsub
  have hobj := getDispersionReport_objects env conf db hc hd r hr
  cases hg : env.GetPolicies.2 with
  | some e =>
    rw [hobj.2 (by simp [hg])] at hsub
    simp [GoMap.get?] at hsub
  | none =>
    obtain ⟨r1, r2, h0, hloop, he⟩ := hobj.1 hg
    rw [he] at hsub
    rcases policyLoop_get?_some env db _ r1 r2 hloop k sub hsub with ⟨q, _, hqk, _, rfl⟩ | hold
    · rw [← hqk]
      exact objectReportOf_times env db q
    · rw [h0] at hold
      simp [GoMap.get?] at hold

theorem backlogsKnown_initDB : BacklogsKnown (sampleEnv initDB [⟨0, "gold"⟩]) initDB := by
  constructor
  · intro qr hqr
    simp [initDB, quietDB] at hqr
  · intro p _ qr hqr
    simp [initDB, quietDB] at hqr

theorem backlogsPresent_halfInitDB :
    BacklogsPresent (sampleEnv halfInitDB [⟨0, "gold"⟩]) halfInitDB := by
  constructor
  · intro qr hqr
    simp [halfInitDB, quietDB] at hqr
  · intro p _ qr hqr
    simp [halfInitDB, quietDB] at hqr

/-- Instance of C7 with both cases: `processPass` returns the times 100 and 200 for
every ring; the container marker "container-init does not yet exist" resets the
container sub-report's times to zero, and the object marker "object-1" of policy 0
leaves the times 100 and 200 in the object sub-report. -/
theorem C7_init_marker_resets_times_witness :
    (getDispersionReport (sampleEnv halfInitDB [⟨0, "gold"⟩])).map
        (fun r => (r.ContainerReport.map (fun c => (c.Start, c.Complete)),
          (r.ObjectReports.get? 0).map (fun s => (s.Start, s.Complete))))
      = some (some (⟨0⟩, ⟨0⟩), some (⟨100⟩, ⟨200⟩)) := by
  have hw := C7_init_marker_resets_times (sampleEnv halfInitDB [⟨0, "gold"⟩]) () halfInitDB
    rfl rfl
  obtain ⟨r, hr⟩ := hw.2 backlogsPresent_halfInitDB
  obtain ⟨⟨c, hc, htc⟩, hobj⟩ := hw.1 r hr
  have hyes : EndsWithInitMarker
      (halfInitDB.processPass "dispersion scan" "container" 0).progress := by decide
  have hno : ¬ EndsWithInitMarker
      (halfInitDB.processPass "dispersion scan" "object" 0).progress := by decide
  obtain ⟨hcs, hcc⟩ := htc.1 hyes
  have hsome : (r.ObjectReports.get? 0).isSome = true := by
    have hr2 := hr
    have hcomp : (getDispersionReport (sampleEnv halfInitDB [⟨0, "gold"⟩])).map
        (fun r => (r.ObjectReports.get? 0).isSome) = some true := by rfl
    rw [hr2] at hcomp
    simpa using hcomp
  obtain ⟨s, hs⟩ := Option.isSome_iff_exists.mp hsome
  obtain ⟨hss, hsc⟩ := (hobj 0 s hs).2 hno
  rw [hr]
  simp only [Option.map_some', hc, hs, hcs, hcc, hss, hsc]
  rfl

/-! ### Claims C8 and C9: the renderings -/

theorem GoMap.keys_set_perm {α : Type} (m : GoMap α) (k : Int) (v : α) :
    (GoMap.keys (m.set k v)) = if k ∈ GoMap.keys m then GoMap.keys m else GoMap.keys m ++ [k] := by
  induction m with
  | nil => simp [GoMap.set, GoMap.keys]
  | cons hd tl ih =>
    obtain ⟨k0, v0⟩ := hd
    by_cases h : k0 = k
    · subst h
      simp [GoMap.set, GoMap.keys]
    · have hne : ¬ k = k0 := fun e => h e.symm
      simp only [GoMap.keys] at ih
      simp only [GoMap.set, h, if_false, GoMap.keys, List.map_cons, List.mem_cons, hne, false_or, ih]
      split <;> simp

theorem GoMap.mem_keys_iff {α : Type} (m : GoMap α) (k : Int) :
    k ∈ GoMap.keys m ↔ (m.get? k).isSome = true := by
  induction m with
  | nil => simp [GoMap.keys, GoMap.get?]
  | cons hd tl ih =>
    obtain ⟨k0, v0⟩ := hd
    by_cases h : k0 = k
    · subst h
      simp [GoMap.keys, GoMap.get?]
    · have hne : ¬ k = k0 := fun e => h e.symm
      simp only [GoMap.keys] at ih
      simp [GoMap.keys, GoMap.get?, h, hne, ih]

/-- Helper: the state of `counts` reached from `counts0` over the entries `parts`. -/
theorem countLengths_spec (parts : GoMap (List dispersionMissing)) (counts : GoMap Int)
    (hnd : (GoMap.keys counts).Nodup) :
    (GoMap.keys (countLengths counts parts)).Nodup ∧
    ∀ K : Int, ((countLengths counts parts).get? K).getD 0
        = (counts.get? K).getD 0 + (partitionsMissing parts K : Int)
      ∧ (K ∈ GoMap.keys (countLengths counts parts) ↔
          K ∈ GoMap.keys counts ∨ 1 ≤ partitionsMissing parts K) := by
  induction parts generalizing counts with
  | nil =>
    refine ⟨hnd, fun K => ?_⟩
    simp [countLengths, partitionsMissing]
  | cons e rest ih =>
    obtain ⟨p, l⟩ := e
    have hnd1 : (GoMap.keys (counts.set (l.length : Int)
        ((counts.get? (l.length : Int)).getD 0 + 1))).Nodup := by
      rw [GoMap.keys_set_perm]
      split
      · exact hnd
      · rename_i hnot
        exact List.Nodup.append hnd (List.nodup_singleton _) (by simpa using hnot)
    obtain ⟨h1, h2⟩ := ih _ hnd1
    refine ⟨h1, fun K => ?_⟩
    obtain ⟨h3, h4⟩ := h2 K
    simp only [countLengths]
    rw [h3, h4]
    by_cases hK : (l.length : Int) = K
    · subst hK
      constructor
      · simp only [GoMap.get?_set_self, Option.getD_some, partitionsMissing, List.countP_cons,
          decide_True, if_true]
        push_cast
        ring
      · rw [GoMap.mem_keys_iff, GoMap.get?_set_self]
        simp [partitionsMissing, List.countP_cons]
    · constructor
      · simp only [GoMap.get?_set_ne _ _ _ _ hK, partitionsMissing, List.countP_cons, hK,
          decide_False]
        simp
      · rw [GoMap.mem_keys_iff, GoMap.get?_set_ne _ _ _ _ hK, ← GoMap.mem_keys_iff]
        simp [partitionsMissing, List.countP_cons, hK]

theorem foldl_append_eq (lines : List String) (s : String) :
    lines.foldl (fun s line => s ++ line) s = s ++ String.join lines := by
  have key : ∀ (l : List String) (a : String),
      l.foldl (fun s line => s ++ line) a = a ++ l.foldl (fun s line => s ++ line) "" := by
    intro l
    induction l with
    | nil => intro a; simp
    | cons x rest ih =>
      intro a
      simp only [List.foldl_cons]
      rw [ih (a ++ x), ih ("" ++ x), String.empty_append, String.append_assoc]
  rw [key lines s]
  rfl

theorem sortInts_sorted_lt (l : List Int) (hnd : l.Nodup) :
    (sortInts l).Sorted (fun a b => a < b) := by
  unfold sortInts
  have h1 : (l.insertionSort (fun a b : Int => a ≤ b)).Sorted (fun a b => a ≤ b) :=
    List.sorted_insertionSort _ l
  exact h1.lt_of_le ((List.perm_insertionSort _ l).nodup_iff.mpr hnd)

theorem mem_sortInts (l : List Int) (k : Int) : k ∈ sortInts l ↔ k ∈ l :=
  (List.perm_insertionSort _ l).mem_iff

theorem histogramLines_eq (parts : GoMap (List dispersionMissing)) :
    ∃ ks : List Int, ks.Sorted (fun a b => a < b) ∧
      (∀ K : Int, K ∈ ks ↔ 1 ≤ partitionsMissing parts K) ∧
      histogramLines parts
        = ks.map (fun K => histogramLine (partitionsMissing parts K : Int) K) := by
  obtain ⟨hnd, hspec⟩ := countLengths_spec parts [] (by simp [GoMap.keys])
  refine ⟨sortInts (GoMap.keys (countLengths [] parts)), sortInts_sorted_lt _ hnd, ?_, ?_⟩
  · intro K
    rw [mem_sortInts, (hspec K).2]
    simp [GoMap.keys]
  · unfold histogramLines
    simp only
    apply List.map_congr_left
    intro K _
    rw [(hspec K).1]
    simp [GoMap.get?]

theorem histogramLine_eq_statedLine (n : Nat) (K : Int) :
    histogramLine (n : Int) K = statedLine n K := by
  unfold histogramLine statedLine
  have hn : ((n : Int) = 1) ↔ n = 1 := by omega
  have hts : toString (n : Int) = toString n := rfl
  by_cases h1 : n = 1
  · by_cases h2 : K = 1
    · simp only [hn, h1, h2, if_true]
      rfl
    · simp only [hn, h1, h2, if_true, if_false]
      apply String.ext
      simp only [String.data_append]
      simp [List.append_assoc]
  · by_cases h2 : K = 1
    · simp only [hn, h1, h2, if_true, if_false, hts]
      apply String.ext
      simp only [String.data_append]
      simp [List.append_assoc]
    · simp only [hn, h1, h2, if_false, hts]
      apply String.ext
      simp only [String.data_append]
      simp [List.append_assoc]

theorem sorted_lt_ext (l1 l2 : List Int) (h1 : l1.Sorted (fun a b => a < b))
    (h2 : l2.Sorted (fun a b => a < b)) (hm : ∀ K, K ∈ l1 ↔ K ∈ l2) : l1 = l2 :=
  List.eq_of_perm_of_sorted ((List.perm_ext_iff_of_nodup h1.nodup h2.nodup).mpr hm) h1 h2

theorem isZero_iff (t : time.Time) : t.IsZero = true ↔ t = ⟨0⟩ := by
  cases t with
  | mk n => simp [time.Time.IsZero]

/-- C8: for every sub-report, the text of `innerDispersionReport.String` is the scan
sentence, the configuration sentence, the sentence "All partition copies were in
place when last checked." when the start time is not zero and the map is empty, then
the histogram and the caveats, where the histogram is one line per `K` of a list `ks`
that is strictly ascending and holds exactly the `K` with `N_K >= 1`, the line of `K`
being `! N_K partitions were missing K copies.` with `1 partition was` in place of
`N_K partitions were` when `N_K = 1` and `1 copy` in place of `K copies` when `K = 1`;
for the empty map the list `ks` is empty. -/
theorem C8_histogram_exact (tf : TimeFormat) (r : innerDispersionReport) :
    ∃ ks : List Int, ks.Sorted (fun a b => a < b) ∧
      (∀ K : Int, K ∈ ks ↔ 1 ≤ partitionsMissing r.Partitions K) ∧
      (r.Partitions = [] → ks = []) ∧
      r.String tf =
        scanText tf r ++ configuredText r
          ++ (if r.Start ≠ ⟨0⟩ ∧ r.Partitions = [] then
                "All partition copies were in place when last checked.\n" else "")
          ++ String.join (ks.map (fun K => statedLine (partitionsMissing r.Partitions K) K))
          ++ caveatText r := by
  obtain ⟨ks, hs, hm, hl⟩ := histogramLines_eq r.Partitions
  have hnil : r.Partitions = [] → ks = [] := by
    intro he
    apply List.eq_nil_iff_forall_not_mem.mpr
    intro K hK
    have := (hm K).mp hK
    simp [he, partitionsMissing] at this
  have hlines : histogramLines r.Partitions
      = ks.map (fun K => statedLine (partitionsMissing r.Partitions K) K) := by
    rw [hl]
    apply List.map_congr_left
    intro K _
    exact histogramLine_eq_statedLine _ K
  refine ⟨ks, hs, hm, hnil, ?_⟩
  unfold innerDispersionReport.String
  simp only
  by_cases hcond : ((!r.Start.IsZero) && r.Partitions.length == 0) = true
  · have hboth : r.Start ≠ ⟨0⟩ ∧ r.Partitions = [] := by
      simp only [Bool.and_eq_true, beq_iff_eq, List.length_eq_zero, Bool.not_eq_true'] at hcond
      refine ⟨fun hz => ?_, hcond.2⟩
      have := (isZero_iff r.Start).mpr hz
      rw [hcond.1] at this
      cases this
    rw [if_pos hcond, if_pos hboth, hnil hboth.2]
    simp [String.join]
  · have hboth : ¬ (r.Start ≠ ⟨0⟩ ∧ r.Partitions = []) := by
      rintro ⟨hz, he⟩
      apply hcond
      have hnz : r.Start.IsZero = false := by
        cases hi : r.Start.IsZero with
        | false => rfl
        | true => exact absurd ((isZero_iff r.Start).mp hi) hz
      simp [hnz, he]
    rw [if_neg hcond, if_neg hboth, foldl_append_eq, hlines]
    simp

/-- Instance of C8: a sub-report with one partition missing one copy and two partitions
missing two copies renders the two histogram lines, singular first, between the
configuration sentence and the caveats. -/
theorem C8_histogram_exact_witness :
    sampleSubReport.String sampleFormat =
      "Last dispersion scan ran from m100 to m200 (1s ago for 100ns).\n"
        ++ "There are 8 partitions configured for 3 copies.\n"
        ++ "! 1 partition was missing 1 copy.\n"
        ++ "! 2 partitions were missing 2 copies.\n"
        ++ "!! 1 service has been giving errors which may skew the report.\n"
        ++ "!! 2 devices have been giving errors which may skew the report.\n" := by
  obtain ⟨ks, hs, hm, _, ht⟩ := C8_histogram_exact sampleFormat sampleSubReport
  have hmem : ∀ K : Int, 1 ≤ partitionsMissing sampleSubReport.Partitions K ↔ K ∈ [(1 : Int), 2] := by
    intro K
    simp only [partitionsMissing, sampleSubReport, List.countP_cons, List.countP_nil,
      List.length_cons, List.length_nil, List.mem_cons, List.mem_singleton, List.not_mem_nil,
      or_false]
    by_cases h1 : K = 1
    · subst h1; decide
    · by_cases h2 : K = 2
      · subst h2; decide
      · have e1 : ¬ ((1 : Int) = K) := fun h => h1 h.symm
        have e2 : ¬ ((2 : Int) = K) := fun h => h2 h.symm
        simp [h1, h2, e1, e2]
  have hks : ks = [1, 2] :=
    sorted_lt_ext ks [1, 2] hs (by decide) (fun K => (hm K).trans (hmem K))
  rw [ht, hks]
  rfl

/-- C9 (refuted on the code): the claim says that `dispersionReport.String` renders,
without failing, one section per entry of ObjectReports headed by that entry's policy
index. For the report that `getDispersionReport` returns with the policies 0 and 2,
the loop of line 47 ranges over the positions 0 and 1 of the sorted index slice, the
lookup of `ObjectReports[1]` yields nil, and the rendering fails at line 49: no text,
and no section for policy 2, is produced. -/
theorem C9_String_fails_on_index_gap :
    ∃ r, getDispersionReport (sampleEnv calmDB [⟨0, "gold"⟩, ⟨2, "silver"⟩]) = some r ∧
      GoMap.keys r.ObjectReports = [0, 2] ∧ r.String sampleFormat = none :=
  ⟨_, rfl, rfl, rfl⟩

/-- With the policies 0 and 1 the positions coincide with the indices and the
rendering succeeds. -/
theorem String_succeeds_without_gap :
    ((getDispersionReport (sampleEnv quietDB [⟨0, "gold"⟩, ⟨1, "silver"⟩])).bind
      (fun r => r.String sampleFormat)).isSome = true := by
  rfl

/-! ### The workers of the name generator -/

@[simp] theorem selectCancel_normal (closed : Bool) : selectCancel closed = Completion.normal := by
  cases closed <;> rfl

theorem attemptLoop_spec (cancel : CheckPoint → Bool) (AdminAccount container pfx : String)
    (r : Ring) (partition : Nat) (d : Nat) :
    ∀ (i fuel : Nat), (∀ j, i ≤ j → j < i + d → ¬ Hits AdminAccount container pfx r partition j) →
      Hits AdminAccount container pfx r partition (i + d) → i + d < 2 ^ 64 → d < fuel →
      attemptLoop cancel AdminAccount container pfx r partition fuel i
        = some ⟨(List.range' i (d + 1)).map (candidate pfx partition),
            [candidate pfx partition (i + d)]⟩ := by
  induction d with
  | zero =>
    intro i fuel _ hhit _ hfuel
    obtain ⟨f, rfl⟩ : ∃ f, fuel = f + 1 := ⟨fuel - 1, by omega⟩
    have hh : genPart AdminAccount container r (candidate pfx partition i) = partition := hhit
    simp [attemptLoop, hh, List.range']
  | succ d ih =>
    intro i fuel hmiss hhit hlt hfuel
    obtain ⟨f, rfl⟩ : ∃ f, fuel = f + 1 := ⟨fuel - 1, by omega⟩
    have hno : ¬ genPart AdminAccount container r (candidate pfx partition i) = partition :=
      hmiss i (le_refl _) (by omega)
    have hwrap : uint64 (i + 1) = i + 1 := by
      unfold uint64
      exact Nat.mod_eq_of_lt (by omega)
    have hrec := ih (i + 1) f (fun j h1 h2 => hmiss j (by omega) (by omega))
      (by rw [show i + 1 + d = i + (d + 1) by omega]; exact hhit) (by omega) (by omega)
    simp only [attemptLoop, selectCancel_normal, hno, if_false, hwrap, hrec, Option.map_some']
    simp [List.range', show i + 1 + d = i + (d + 1) by omega]

theorem attemptLoop_least (cancel : CheckPoint → Bool) (AdminAccount container pfx : String)
    (r : Ring) (partition i fuel : Nat) (hl : LeastHit AdminAccount container pfx r partition i)
    (hi : i < 2 ^ 64) (hfuel : i < fuel) :
    attemptLoop cancel AdminAccount container pfx r partition fuel 0
      = some ⟨(List.range (i + 1)).map (candidate pfx partition), [candidate pfx partition i]⟩ := by
  have h := attemptLoop_spec cancel AdminAccount container pfx r partition i 0 fuel
    (fun j _ hj => hl.2 j (by omega)) (by simpa using hl.1) (by omega) hfuel
  simpa [List.range_eq_range'] using h

theorem step_of_congruent (W p q : Nat) (hpq : p < q) (hmod : q % W = p % W) : p + W ≤ q := by
  have hdvd : W ∣ q - p := (Nat.modEq_iff_dvd' (le_of_lt hpq)).mp hmod.symm
  have := Nat.le_of_dvd (by omega) hdvd
  omega

theorem worker_spec (cancel : CheckPoint → Bool) (AdminAccount container pfx : String)
    (r : Ring) (P W B : Nat) (att : Nat → Nat) (hW : 1 ≤ W) (hrange : P + W ≤ 2 ^ 64)
    (hnodes : ∀ p, r.GetNodes p = none ↔ P ≤ p)
    (hatt : ∀ p, p < P → att p < 2 ^ 64 ∧ att p < B ∧
      LeastHit AdminAccount container pfx r p (att p)) (n : Nat) :
    ∀ (p fuel : Nat), P - p ≤ n → n + B < fuel →
      ∃ ps : List Nat, ps.Sorted (fun a b => a < b) ∧
        (∀ q, q ∈ ps ↔ p ≤ q ∧ q < P ∧ q % W = p % W) ∧
        worker cancel AdminAccount container pfx r W fuel p = some (expectedTrace pfx att ps) := by
  induction n with
  | zero =>
    intro p fuel hp hfuel
    obtain ⟨f, rfl⟩ : ∃ f, fuel = f + 1 := ⟨fuel - 1, by omega⟩
    have hnil : r.GetNodes p = none := (hnodes p).mpr (by omega)
    refine ⟨[], List.sorted_nil, fun q => by simp; omega, ?_⟩
    simp [worker, hnil, expectedTrace]
  | succ n ih =>
    intro p fuel hp hfuel
    obtain ⟨f, rfl⟩ : ∃ f, fuel = f + 1 := ⟨fuel - 1, by omega⟩
    by_cases hpP : P ≤ p
    · have hnil : r.GetNodes p = none := (hnodes p).mpr hpP
      refine ⟨[], List.sorted_nil, fun q => by simp; omega, ?_⟩
      simp [worker, hnil, expectedTrace]
    · have hlt : p < P := by omega
      obtain ⟨devs, hdevs⟩ : ∃ devs, r.GetNodes p = some devs := by
        cases hg : r.GetNodes p with
        | none => exact absurd ((hnodes p).mp hg) hpP
        | some devs => exact ⟨devs, rfl⟩
      obtain ⟨h64, hB, hleast⟩ := hatt p hlt
      have hinner := attemptLoop_least cancel AdminAccount container pfx r p (att p) f hleast h64
        (by omega)
      have hwrap : uint64 (p + W) = p + W := by
        unfold uint64
        exact Nat.mod_eq_of_lt (by omega)
      obtain ⟨ps, hsorted, hmem, hw⟩ := ih (p + W) f (by omega) (by omega)
      refine ⟨p :: ps, ?_, ?_, ?_⟩
      · refine List.sorted_cons.mpr ⟨fun q hq => ?_, hsorted⟩
        have := ((hmem q).mp hq).1
        omega
      · intro q
        rw [List.mem_cons, hmem]
        constructor
        · rintro (rfl | ⟨h1, h2, h3⟩)
          · exact ⟨le_refl _, hlt, rfl⟩
          · refine ⟨by omega, h2, ?_⟩
            rw [h3, Nat.add_mod_right]
        · rintro ⟨h1, h2, h3⟩
          by_cases hq : q = p
          · exact Or.inl hq
          · refine Or.inr ⟨step_of_congruent W p q (by omega) h3, h2, ?_⟩
            rw [h3, Nat.add_mod_right]
      · simp only [worker, selectCancel_normal, hdevs, hinner, hwrap, hw, Option.map_some']
        simp [expectedTrace]

theorem collect_map {α β : Type} (l : List α) (f : α → Option β) (g : α → β)
    (h : ∀ x ∈ l, f x = some (g x)) : collect (l.map f) = some (l.map g) := by
  induction l with
  | nil => rfl
  | cons a rest ih =>
    have ha := h a (List.mem_cons_self _ _)
    have hr := ih (fun x hx => h x (List.mem_cons_of_mem _ hx))
    simp [collect, ha, hr]

theorem worker_partitions_eq (P W w : Nat) (hw : w < W) (ps : List Nat)
    (hs : ps.Sorted (fun a b => a < b))
    (hm : ∀ q, q ∈ ps ↔ w ≤ q ∧ q < P ∧ q % W = w % W) : ps = workerPartitions P W w := by
  have hs2 : (workerPartitions P W w).Sorted (fun a b => a < b) :=
    (List.sorted_lt_range P).filter _
  refine List.eq_of_perm_of_sorted ?_ hs hs2
  refine (List.perm_ext_iff_of_nodup hs.nodup hs2.nodup).mpr (fun q => ?_)
  rw [hm, workerPartitions, List.mem_filter, List.mem_range, Nat.mod_eq_of_lt hw]
  simp only [decide_eq_true_eq]
  constructor
  · rintro ⟨_, h2, h3⟩
    exact ⟨h2, h3⟩
  · rintro ⟨h2, h3⟩
    refine ⟨?_, h2, h3⟩
    rw [← h3]
    exact Nat.mod_le _ _

theorem generate_traces (cancel : CheckPoint → Bool) (AdminAccount container pfx : String)
    (r : Ring) (P W B : Nat) (att : Nat → Nat) (hW : 1 ≤ W) (hrange : P + W ≤ 2 ^ 64)
    (hnodes : ∀ p, r.GetNodes p = none ↔ P ≤ p)
    (hatt : ∀ p, p < P → att p < 2 ^ 64 ∧ att p < B ∧
      LeastHit AdminAccount container pfx r p (att p))
    (fuel : Nat) (hfuel : P + B < fuel) :
    generateDispersionNames cancel AdminAccount container pfx r W fuel
      = some ((List.range W).map (fun w => expectedTrace pfx att (workerPartitions P W w))) := by
  unfold generateDispersionNames
  apply collect_map
  intro w hw
  rw [List.mem_range] at hw
  obtain ⟨ps, hs, hm, hres⟩ := worker_spec cancel AdminAccount container pfx r P W B att hW hrange
    hnodes hatt P w fuel (by omega) hfuel
  rw [hres, worker_partitions_eq P W w hw ps hs hm]

theorem workerPartitions_flatten_perm (P W : Nat) (hW : 1 ≤ W) :
    ((List.range W).map (workerPartitions P W)).flatten.Perm (List.range P) := by
  have hnd : ((List.range W).map (workerPartitions P W)).flatten.Nodup := by
    rw [List.nodup_flatten]
    constructor
    · intro l hl
      obtain ⟨w, _, rfl⟩ := List.mem_map.mp hl
      exact (List.nodup_range P).filter _
    · rw [List.pairwise_map]
      refine (List.nodup_range W).imp ?_
      intro a b hab q hqa hqb
      simp only [workerPartitions, List.mem_filter, decide_eq_true_eq] at hqa hqb
      exact hab (hqa.2.symm.trans hqb.2)
  refine (List.perm_ext_iff_of_nodup hnd (List.nodup_range P)).mpr (fun q => ?_)
  simp only [List.mem_flatten, List.mem_map, List.mem_range, workerPartitions]
  constructor
  · rintro ⟨l, ⟨w, _, rfl⟩, hq⟩
    simpa using (List.mem_filter.mp hq).1
  · intro hq
    exact ⟨_, ⟨q % W, Nat.mod_lt _ (by omega), rfl⟩, by simp [List.mem_filter, hq]⟩

theorem exists_least_attempts (AdminAccount container pfx : String) (r : Ring) (P : Nat)
    (hhit : ∀ p, p < P → ∃ i, i < 2 ^ 64 ∧ Hits AdminAccount container pfx r p i) :
    ∃ (att : Nat → Nat) (B : Nat), ∀ p, p < P → att p < 2 ^ 64 ∧ att p < B ∧
      LeastHit AdminAccount container pfx r p (att p) := by
  classical
  have hex : ∀ p, p < P → ∃ i, Hits AdminAccount container pfx r p i := fun p hp =>
    (hhit p hp).elim (fun i hi => ⟨i, hi.2⟩)
  let att : Nat → Nat := fun p => if hp : p < P then Nat.find (hex p hp) else 0
  refine ⟨att, 2 ^ 64, fun p hp => ?_⟩
  have hattp : att p = Nat.find (hex p hp) := by simp [att, hp]
  obtain ⟨i, hi, hhi⟩ := hhit p hp
  have hle : att p ≤ i := by rw [hattp]; exact Nat.find_min' _ hhi
  refine ⟨by omega, by omega, ?_, ?_⟩
  · rw [hattp]; exact Nat.find_spec (hex p hp)
  · intro j hj
    rw [hattp] at hj
    exact Nat.find_min (hex p hp) hj

theorem attemptLoop_ignores_cancel (cancel : CheckPoint → Bool)
    (AdminAccount container pfx : String) (r : Ring) (partition fuel i : Nat) :
    attemptLoop cancel AdminAccount container pfx r partition fuel i
      = attemptLoop (fun _ => false) AdminAccount container pfx r partition fuel i := by
  induction fuel generalizing i with
  | zero => rfl
  | succ f ih => simp only [attemptLoop, selectCancel_normal, ih]

theorem worker_ignores_cancel (cancel : CheckPoint → Bool)
    (AdminAccount container pfx : String) (r : Ring) (numCPU fuel partition : Nat) :
    worker cancel AdminAccount container pfx r numCPU fuel partition
      = worker (fun _ => false) AdminAccount container pfx r numCPU fuel partition := by
  induction fuel generalizing partition with
  | zero => rfl
  | succ f ih =>
    simp only [worker, selectCancel_normal, ih,
      attemptLoop_ignores_cancel cancel AdminAccount container pfx r partition f 0]

/-- Whatever the workers observe on the cancel channel, the run is the run without
cancellation. -/
theorem generateDispersionNames_ignores_cancel (cancel : CheckPoint → Bool)
    (AdminAccount container pfx : String) (r : Ring) (numCPU fuel : Nat) :
    generateDispersionNames cancel AdminAccount container pfx r numCPU fuel
      = generateDispersionNames (fun _ => false) AdminAccount container pfx r numCPU fuel := by
  unfold generateDispersionNames
  simp only [worker_ignores_cancel cancel]

/-! ### Claims C4, C5 and C10: the names sent -/

theorem expectedTrace_sent (pfx : String) (att : Nat → Nat) (P W : Nat) :
    ((List.range W).map (fun w => expectedTrace pfx att (workerPartitions P W w))).map
        WorkerTrace.sent
      = (List.range W).map
          (fun w => (workerPartitions P W w).map (fun p => candidate pfx p (att p))) := by
  simp [expectedTrace, Function.comp_def]

theorem sent_flatten_eq (nameOf : Nat → String) (P W : Nat) :
    ((List.range W).map (fun w => (workerPartitions P W w).map nameOf)).flatten
      = (((List.range W).map (workerPartitions P W)).flatten).map nameOf := by
  rw [List.map_flatten, List.map_map]
  rfl

/-- C4: for a ring with `P` partitions (`GetNodes p` is nil exactly when `p >= P`), a
worker count `W >= 1` within the range of the `uint64` partition counter
(`P + W <= 2^64`) and a hash for which every partition below `P` is hit by some
candidate, there are names `nameOf p` such that every run without cancellation with
enough fuel completes, worker `w` sending exactly the names of the partitions below
`P` congruent to `w` modulo `W`, in ascending order of partition; so the names sent
are `P` in number, pairwise distinct, a rearrangement of `nameOf 0 .. nameOf (P-1)`,
and `nameOf p`, passed back through `GetPartition` as the code does (`genPart`),
yields `p`. -/
theorem C4_one_name_per_partition (AdminAccount container pfx : String) (r : Ring) (P W : Nat)
    (hW : 1 ≤ W) (hrange : P + W ≤ 2 ^ 64) (hnodes : ∀ p, r.GetNodes p = none ↔ P ≤ p)
    (hhit : ∀ p, p < P → ∃ i, i < 2 ^ 64 ∧ Hits AdminAccount container pfx r p i) :
    ∃ (nameOf : Nat → String) (fuel0 : Nat),
      (∀ p, p < P → genPart AdminAccount container r (nameOf p) = p) ∧
      ∀ fuel, fuel0 ≤ fuel →
        ∃ traces,
          generateDispersionNames (fun _ => false) AdminAccount container pfx r W fuel
            = some traces ∧
          traces.map WorkerTrace.sent
            = (List.range W).map (fun w => (workerPartitions P W w).map nameOf) ∧
          (traces.map WorkerTrace.sent).flatten.length = P ∧
          (traces.map WorkerTrace.sent).flatten.Nodup ∧
          (traces.map WorkerTrace.sent).flatten.Perm ((List.range P).map nameOf) := by
  obtain ⟨att, B, hatt⟩ := exists_least_attempts AdminAccount container pfx r P hhit
  have hback : ∀ p, p < P →
      genPart AdminAccount container r (candidate pfx p (att p)) = p :=
    fun p hp => (hatt p hp).2.2.1
  refine ⟨fun p => candidate pfx p (att p), P + B + 1, hback, fun fuel hfuel => ?_⟩
  have hgen := generate_traces (fun _ => false) AdminAccount container pfx r P W B att hW hrange
    hnodes hatt fuel (by omega)
  have hperm : (((List.range W).map
      (fun w => (workerPartitions P W w).map (fun p => candidate pfx p (att p)))).flatten).Perm
      ((List.range P).map (fun p => candidate pfx p (att p))) := by
    rw [sent_flatten_eq]
    exact (workerPartitions_flatten_perm P W hW).map _
  have hnodup : ((List.range P).map (fun p => candidate pfx p (att p))).Nodup := by
    refine List.Nodup.map_on ?_ (List.nodup_range P)
    intro x hx y hy hxy
    rw [List.mem_range] at hx hy
    rw [← hback x hx, ← hback y hy, hxy]
  refine ⟨_, hgen, expectedTrace_sent pfx att P W, ?_, ?_, ?_⟩
  · rw [expectedTrace_sent, hperm.length_eq]
    simp
  · rw [expectedTrace_sent]
    exact hperm.nodup_iff.mpr hnodup
  · rw [expectedTrace_sent]
    exact hperm

theorem parityRing_nodes (p : Nat) : parityRing.GetNodes p = none ↔ 2 ≤ p := by
  by_cases h : p < 2
  · simp [parityRing, h]
  · simp [parityRing, h]
    omega

theorem parityRing_hits (p : Nat) (hp : p < 2) :
    ∃ i, i < 2 ^ 64 ∧ Hits ".admin" "" "p" parityRing p i := by
  interval_cases p
  · exact ⟨0, by norm_num, by decide⟩
  · exact ⟨10, by norm_num, by decide⟩

/-- Instance of C4 at the parity ring with two partitions and two workers. -/
theorem C4_one_name_per_partition_witness :
    ∃ fuel traces,
      generateDispersionNames (fun _ => false) ".admin" "" "p" parityRing 2 fuel = some traces ∧
        (traces.map WorkerTrace.sent).flatten.length = 2 := by
  obtain ⟨nameOf, fuel0, _, h⟩ :=
    C4_one_name_per_partition ".admin" "" "p" parityRing 2 2 (by norm_num) (by norm_num)
      parityRing_nodes parityRing_hits
  obtain ⟨traces, h1, _, h2, _⟩ := h fuel0 (le_refl _)
  exact ⟨fuel0, traces, h1, h2⟩

/-- C5 (refuted on the code): the claim says that a worker that observes the cancel
channel closed stops and sends no further name, so that no name is sent when the
channel is closed before the call. Both checks are `select` statements whose
`case <-cancel` holds a bare `break`, which leaves the `select` only: with the channel
closed before the call, the two workers on the parity ring still search and send the
names of both partitions. -/
theorem C5_closed_cancel_still_sends :
    generateDispersionNames (fun _ => true) ".admin" "" "p" parityRing 2 12
      = some [⟨["p0-0"], ["p0-0"]⟩,
              ⟨["p1-0", "p1-1", "p1-2", "p1-3", "p1-4", "p1-5", "p1-6", "p1-7", "p1-8", "p1-9",
                "p1-10"], ["p1-10"]⟩] := by
  rfl

/-- C10: under the conditions of C4 there are attempt numbers `att p`, each the least
attempt whose candidate hashes to `p`, such that every run without cancellation with
enough fuel completes with worker `w` having, for each of its partitions `p` in
turn, passed to `GetPartition` the candidates of the attempts `0, 1, .., att p` and no
other, and sent the candidate of attempt `att p`, which is the text
`pfx ++ decimal p ++ "-" ++ decimal (att p)`. -/
theorem C10_least_attempt_is_sent (AdminAccount container pfx : String) (r : Ring) (P W : Nat)
    (hW : 1 ≤ W) (hrange : P + W ≤ 2 ^ 64) (hnodes : ∀ p, r.GetNodes p = none ↔ P ≤ p)
    (hhit : ∀ p, p < P → ∃ i, i < 2 ^ 64 ∧ Hits AdminAccount container pfx r p i) :
    ∃ (att : Nat → Nat) (fuel0 : Nat),
      (∀ p, p < P → LeastHit AdminAccount container pfx r p (att p)) ∧
      (∀ p, candidate pfx p (att p) = pfx ++ toString p ++ "-" ++ toString (att p)) ∧
      ∀ fuel, fuel0 ≤ fuel →
        generateDispersionNames (fun _ => false) AdminAccount container pfx r W fuel
          = some ((List.range W).map (fun w =>
              (⟨((workerPartitions P W w).map
                  (fun p => (List.range (att p + 1)).map (candidate pfx p))).flatten,
                (workerPartitions P W w).map (fun p => candidate pfx p (att p))⟩ :
                WorkerTrace))) := by
  obtain ⟨att, B, hatt⟩ := exists_least_attempts AdminAccount container pfx r P hhit
  refine ⟨att, P + B + 1, fun p hp => (hatt p hp).2.2, fun p => rfl, fun fuel hfuel => ?_⟩
  exact generate_traces (fun _ => false) AdminAccount container pfx r P W B att hW hrange
    hnodes hatt fuel (by omega)

/-- Instance of C10 at the parity ring with two partitions and two workers. -/
theorem C10_least_attempt_is_sent_witness :
    ∃ att : Nat → Nat, LeastHit ".admin" "" "p" parityRing 1 (att 1) := by
  obtain ⟨att, _, h, _⟩ :=
    C10_least_attempt_is_sent ".admin" "" "p" parityRing 2 2 (by norm_num) (by norm_num)
      parityRing_nodes parityRing_hits
  exact ⟨att, h 1 (by norm_num)⟩

/-! ### Claim C12 and the confirmation of the mutating commands -/

theorem backlogParts_unknown (ring : Ring) (qrs : List queuedReplication)
    (parts : GoMap (List dispersionMissing))
    (hu : ∃ qr ∈ qrs, resolveDevice ring.AllDevices qr.toDeviceID = none) :
    backlogParts ring parts qrs = none := by
  induction qrs generalizing parts with
  | nil => simp at hu
  | cons qr rest ih =>
    cases hd : resolveDevice ring.AllDevices qr.toDeviceID with
    | none => simp [backlogParts, hd]
    | some dev =>
      simp only [backlogParts, hd]
      apply ih
      obtain ⟨q, hq, hres⟩ := hu
      rcases List.mem_cons.mp hq with rfl | hq
      · rw [hd] at hres
        cases hres
      · exact ⟨q, hq, hres⟩

/-- A container backlog returned without error that holds an entry whose destination
device id does not index a present device makes the function panic. -/
theorem getDispersionReport_panics {σ : Type} (env : Env σ) (conf : σ) (db : DB)
    (hc : env.getAndrewdConf = .ok conf) (hd : env.newDB conf = .ok db)
    (hq : (db.queuedReplications "container" 0 "dispersion").2 = none)
    (hu : ∃ qr ∈ (db.queuedReplications "container" 0 "dispersion").1,
      resolveDevice (env.getRing "container" 0).AllDevices qr.toDeviceID = none) :
    getDispersionReport env = none := by
  rw [getDispersionReport_ok env conf db hc hd]
  have hp := backlogParts_unknown (env.getRing "container" 0) _ [] hu
  have : containerSection env db (initialReport env.now) = none := by
    unfold containerSection
    simp only [backlogLoop_eq, hq]
    simp [hp, newInnerReport]
  simp [this]

/-- C12 (refuted on the code): the claim says that every destination device id is
resolved without failure and that a report is returned. On the ring with the device
slots 0 (present), 1 (empty) and 2 (present), a container backlog entry with
`toDeviceID` 5 (not less than the length of the device list), 1 (empty slot) or -1
(negative) makes the lookup of line 160 or the dereference of line 163 panic: no
report is returned. -/
theorem C12_unresolved_device_panics :
    getDispersionReport (sampleEnv (staleDB 5) [⟨0, "gold"⟩]) = none ∧
    getDispersionReport (sampleEnv (staleDB 1) [⟨0, "gold"⟩]) = none ∧
    getDispersionReport (sampleEnv (staleDB (-1)) [⟨0, "gold"⟩]) = none ∧
    (getDispersionReport (sampleEnv (staleDB 2) [⟨0, "gold"⟩])).isSome = true :=
  ⟨rfl, rfl, rfl, rfl⟩

theorem ringCalls_append {F D : Type} (a b : List (Event F D)) :
    ringCalls (a ++ b) = ringCalls a ++ ringCalls b := by
  induction a with
  | nil => rfl
  | cons e rest ih =>
    cases e <;> simp [ringCalls, ih]

theorem ringCalls_callAndReport {F D : Type} (env : CmdEnv F D) (c : RingCall F D)
    (done : String) : ringCalls (callAndReport env c done) = [c] := by
  unfold callAndReport
  cases env.callError c <;> simp [ringCalls]

theorem confirm_spec {F D : Type} (env : CmdEnv F D) (declined : String)
    (hread : ReadContract env.ReadString) :
    ∃ evs b, confirm env declined = some (evs, b) ∧ ringCalls evs = [] ∧
      (b = true ↔ (env.ReadString.2 = none ∧
        (env.ReadString.1.toList.head? = some 'y' ∨ env.ReadString.1.toList.head? = some 'Y'))) := by
  unfold confirm
  cases herr : env.ReadString.2 with
  | some e => exact ⟨[Event.Println e], false, rfl, rfl, by simp⟩
  | none =>
    have hlast := hread herr
    revert hlast
    generalize env.ReadString.1.toList = l
    intro hlast
    cases l with
    | nil => simp at hlast
    | cons c t =>
      simp only [List.head?_cons, Option.some.injEq, true_and]
      by_cases hc : c ≠ 'y' ∧ c ≠ 'Y'
      · refine ⟨[Event.Println declined], false, by simp [hc], rfl, ?_⟩
        simp [hc.1, hc.2]
      · refine ⟨[], true, by simp [hc], rfl, ?_⟩
        simp only [true_iff]
        by_contra hno
        exact hc ⟨fun h => hno (Or.inl h), fun h => hno (Or.inr h)⟩

theorem confirmAndCall_spec {F D : Type} (env : CmdEnv F D) (devs : List D) (yes : Bool)
    (prompt : Event F D) (declined : String) (c : RingCall F D) (done : String)
    (hprompt : ringCalls [prompt] = []) (hread : ReadContract env.ReadString) :
    ∃ trace, confirmAndCall env devs yes prompt declined c done = some trace ∧
      ((devs ≠ [] ∧ Confirmed yes env.ReadString ∧ ringCalls trace = [c]) ∨
        (¬ (devs ≠ [] ∧ Confirmed yes env.ReadString) ∧ ringCalls trace = [])) := by
  unfold confirmAndCall
  cases devs with
  | nil => exact ⟨[Event.Println "No matching devices found."], by simp, Or.inr ⟨by simp, rfl⟩⟩
  | cons d ds =>
    simp only [List.length_cons, Nat.add_one_ne_zero, if_false]
    cases yes with
    | true =>
      simp only [Bool.not_true, Bool.false_eq_true, if_false]
      refine ⟨_, rfl, Or.inl ⟨by simp, Or.inl rfl, ?_⟩⟩
      rw [ringCalls_append, ringCalls_callAndReport]
      rfl
    | false =>
      obtain ⟨evs, b, hconf, hevs, hb⟩ := confirm_spec env declined hread
      cases b with
      | true =>
        simp only [Bool.not_false, if_true, hconf]
        refine ⟨_, rfl, Or.inl ⟨by simp, Or.inr (hb.mp rfl), ?_⟩⟩
        simp only [ringCalls_append, ringCalls_callAndReport, hevs, hprompt]
        rfl
      | false =>
        simp only [Bool.not_false, if_true, hconf]
        refine ⟨_, rfl, Or.inr ⟨?_, ?_⟩⟩
        · rintro ⟨_, hconfirmed⟩
          rcases hconfirmed with hyes | hresp
          · cases hyes
          · have := hb.mpr hresp
            cases this
        · simp only [ringCalls_append, hevs, hprompt]
          rfl

/-! ### Claim C11: the mutating commands -/

theorem setInfoCmd_spec {F D : Type} (env : CmdEnv F D) (pth : String) (rest : List String)
    (hread : ReadContract env.ReadString) :
    ∃ trace, setInfoCmd env pth rest = some trace ∧
      ((∃ fl devs, SetInfoAllowed env pth rest fl devs ∧
          ringCalls trace = [RingCall.SetInfo pth devs fl.newIp fl.newPort fl.newRepIp
            fl.newRepPort fl.newDevice fl.newMeta]) ∨
        ((¬ ∃ fl devs, SetInfoAllowed env pth rest fl devs) ∧ ringCalls trace = [])) := by
  unfold setInfoCmd SetInfoAllowed
  cases hp : env.parseChangeFlags rest with
  | error e =>
    dsimp only
    exact ⟨_, rfl, Or.inr ⟨by simp, rfl⟩⟩
  | ok fl =>
    dsimp only
    cases hs : env.Search pth fl.search with
    | error e =>
      dsimp only
      refine ⟨_, rfl, Or.inr ⟨?_, rfl⟩⟩
      rintro ⟨fl1, devs, h1, h2, _⟩
      cases h1
      rw [hs] at h2
      cases h2
    | ok devs =>
      dsimp only
      obtain ⟨trace, ht, hcase⟩ := confirmAndCall_spec env devs fl.yes
        (Event.Printf "Are you sure you want to update the info for these %d devices (y/n)? "
          [PrintArg.int devs.length]) "No devices updated."
        (RingCall.SetInfo pth devs fl.newIp fl.newPort fl.newRepIp fl.newRepPort fl.newDevice
          fl.newMeta) "Devices updated successfully." rfl hread
      refine ⟨trace, ht, ?_⟩
      rcases hcase with ⟨h1, h2, h3⟩ | ⟨h1, h2⟩
      · exact Or.inl ⟨fl, devs, ⟨rfl, hs, h1, h2⟩, h3⟩
      · refine Or.inr ⟨?_, h2⟩
        rintro ⟨fl1, devs1, e1, e2, e3, e4⟩
        cases e1
        rw [hs] at e2
        cases e2
        exact h1 ⟨e3, e4⟩

theorem removeCmd_spec {F D : Type} (env : CmdEnv F D) (pth : String) (rest : List String)
    (hread : ReadContract env.ReadString) :
    ∃ trace, removeCmd env pth rest = some trace ∧
      ((∃ fl devs, RemoveAllowed env pth rest fl devs ∧
          ringCalls trace = [RingCall.RemoveDevs pth devs]) ∨
        ((¬ ∃ fl devs, RemoveAllowed env pth rest fl devs) ∧ ringCalls trace = [])) := by
  unfold removeCmd RemoveAllowed
  cases hp : env.parseWeightFlags rest with
  | error e =>
    dsimp only
    exact ⟨_, rfl, Or.inr ⟨by simp, rfl⟩⟩
  | ok fl =>
    dsimp only
    cases hs : env.Search pth fl.search with
    | error e =>
      dsimp only
      refine ⟨_, rfl, Or.inr ⟨?_, rfl⟩⟩
      rintro ⟨fl1, devs, h1, h2, _⟩
      cases h1
      rw [hs] at h2
      cases h2
    | ok devs =>
      dsimp only
      obtain ⟨trace, ht, hcase⟩ := confirmAndCall_spec env devs fl.yes
        (Event.Printf "Are you sure you want to remove these %d devices (y/n)? "
          [PrintArg.int devs.length]) "No devices removed."
        (RingCall.RemoveDevs pth devs) "Devices removed successfully." rfl hread
      refine ⟨trace, ht, ?_⟩
      rcases hcase with ⟨h1, h2, h3⟩ | ⟨h1, h2⟩
      · exact Or.inl ⟨fl, devs, ⟨rfl, hs, h1, h2⟩, h3⟩
      · refine Or.inr ⟨?_, h2⟩
        rintro ⟨fl1, devs1, e1, e2, e3, e4⟩
        cases e1
        rw [hs] at e2
        cases e2
        exact h1 ⟨e3, e4⟩

theorem setWeightCmd_spec {F D : Type} (env : CmdEnv F D) (pth : String) (rest : List String)
    (hread : ReadContract env.ReadString) :
    ∃ trace, setWeightCmd env pth rest = some trace ∧
      ((∃ fl newWeight devs, SetWeightAllowed env pth rest fl newWeight devs ∧
          ringCalls trace = [RingCall.SetWeight pth devs newWeight]) ∨
        ((¬ ∃ fl newWeight devs, SetWeightAllowed env pth rest fl newWeight devs) ∧
          ringCalls trace = [])) := by
  unfold setWeightCmd SetWeightAllowed
  cases hp : env.parseWeightFlags rest with
  | error e =>
    dsimp only
    exact ⟨_, rfl, Or.inr ⟨by simp, rfl⟩⟩
  | ok fl =>
    dsimp only
    cases ha : fl.args with
    | nil =>
      dsimp only
      refine ⟨_, rfl, Or.inr ⟨?_, rfl⟩⟩
      rintro ⟨fl1, w, devs, h1, ⟨a, t, h2, _⟩, _⟩
      cases h1
      rw [ha] at h2
      cases h2
    | cons arg0 tail =>
      dsimp only
      cases hw : env.ParseFloat arg0 with
      | error e =>
        dsimp only
        refine ⟨_, rfl, Or.inr ⟨?_, rfl⟩⟩
        rintro ⟨fl1, w, devs, h1, ⟨a, t, h2, h3⟩, _⟩
        cases h1
        rw [ha] at h2
        cases h2
        rw [hw] at h3
        cases h3
      | ok newWeight =>
        dsimp only
        cases hs : env.Search pth fl.search with
        | error e =>
          dsimp only
          refine ⟨_, rfl, Or.inr ⟨?_, rfl⟩⟩
          rintro ⟨fl1, w, devs, h1, _, h2, _⟩
          cases h1
          rw [hs] at h2
          cases h2
        | ok devs =>
          dsimp only
          obtain ⟨trace, ht, hcase⟩ := confirmAndCall_spec env devs fl.yes
            (Event.Printf
              "Are you sure you want to update the weight to %.2f for these %d devices (y/n)? "
              [PrintArg.float newWeight, PrintArg.int devs.length]) "No devices updated."
            (RingCall.SetWeight pth devs newWeight) "Weight updated successfully." rfl hread
          refine ⟨trace, ht, ?_⟩
          rcases hcase with ⟨h1, h2, h3⟩ | ⟨h1, h2⟩
          · exact Or.inl ⟨fl, newWeight, devs, ⟨rfl, ⟨arg0, tail, ha, hw⟩, hs, h1, h2⟩, h3⟩
          · refine Or.inr ⟨?_, h2⟩
            rintro ⟨fl1, w, devs1, e1, ⟨a, t, e2, e3⟩, e4, e5, e6⟩
            cases e1
            rw [hs] at e4
            cases e4
            exact h1 ⟨e5, e6⟩

/-- C11: for each of the commands `set_info`, `set_weight` and `remove` (the builder
path not being the word `help`, which `RingBuildCmd` answers with the usage text),
with `ReadString` keeping its contract that a line read without error ends in the
newline, the run does not fail, and its mutating calls are exactly the one call of
`SetInfo`, `SetWeight` or `RemoveDevs` on the devices the search returned when the
flags parse (and, for `set_weight`, the new weight parses), the search succeeds with
at least one device and the operator has confirmed by the yes flag or by a response
read without error whose first character is `y` or `Y`; otherwise there is no
mutating call. -/
theorem C11_mutation_iff_confirmed {F D : Type} (env : CmdEnv F D) (debug : Bool)
    (pth : String) (rest : List String) (hpth : pth ≠ "help")
    (hread : ReadContract env.ReadString) :
    (∃ trace, RingBuildCmd env debug (pth :: "set_info" :: rest) = some trace ∧
      ((∃ fl devs, SetInfoAllowed env pth rest fl devs ∧
          ringCalls trace = [RingCall.SetInfo pth devs fl.newIp fl.newPort fl.newRepIp
            fl.newRepPort fl.newDevice fl.newMeta]) ∨
        ((¬ ∃ fl devs, SetInfoAllowed env pth rest fl devs) ∧ ringCalls trace = [])))
    ∧ (∃ trace, RingBuildCmd env debug (pth :: "set_weight" :: rest) = some trace ∧
      ((∃ fl newWeight devs, SetWeightAllowed env pth rest fl newWeight devs ∧
          ringCalls trace = [RingCall.SetWeight pth devs newWeight]) ∨
        ((¬ ∃ fl newWeight devs, SetWeightAllowed env pth rest fl newWeight devs) ∧
          ringCalls trace = [])))
    ∧ (∃ trace, RingBuildCmd env debug (pth :: "remove" :: rest) = some trace ∧
      ((∃ fl devs, RemoveAllowed env pth rest fl devs ∧
          ringCalls trace = [RingCall.RemoveDevs pth devs]) ∨
        ((¬ ∃ fl devs, RemoveAllowed env pth rest fl devs) ∧ ringCalls trace = []))) := by
  refine ⟨?_, ?_, ?_⟩
  · have : RingBuildCmd env debug (pth :: "set_info" :: rest) = setInfoCmd env pth rest := by
      simp [RingBuildCmd, hpth]
    rw [this]
    exact setInfoCmd_spec env pth rest hread
  · have : RingBuildCmd env debug (pth :: "set_weight" :: rest) = setWeightCmd env pth rest := by
      simp [RingBuildCmd, hpth]
    rw [this]
    exact setWeightCmd_spec env pth rest hread
  · have : RingBuildCmd env debug (pth :: "remove" :: rest) = removeCmd env pth rest := by
      simp [RingBuildCmd, hpth]
    rw [this]
    exact removeCmd_spec env pth rest hread

/-! ### The regular expression of the add command -/

theorem takeRun_append (p : Char → Bool) (run rest : List Char) (hrun : IsRunOf p run)
    (hrest : ∀ c t, rest = c :: t → p c = false) :
    takeRun p (run ++ rest) = some (run, rest) := by
  have htake : (run ++ rest).takeWhile p = run := by
    rw [List.takeWhile_append_of_pos hrun.2]
    cases rest with
    | nil => simp
    | cons c t => simp [hrest c t rfl]
  have hdrop : (run ++ rest).dropWhile p = rest := by
    rw [List.dropWhile_append_of_pos hrun.2]
    cases rest with
    | nil => simp
    | cons c t => simp [hrest c t rfl]
  unfold takeRun
  rw [htake, hdrop]
  cases run with
  | nil => exact absurd rfl hrun.1
  | cons a l => rfl

theorem takeRun_some (p : Char → Bool) (s run rest : List Char)
    (h : takeRun p s = some (run, rest)) : IsRunOf p run ∧ s = run ++ rest := by
  unfold takeRun at h
  have hmem : ∀ c ∈ s.takeWhile p, p c = true := fun c hc => List.mem_takeWhile_imp hc
  have happ : s.takeWhile p ++ s.dropWhile p = s := List.takeWhile_append_dropWhile p s
  cases ht : s.takeWhile p with
  | nil => simp [ht] at h
  | cons a l =>
    rw [ht] at h hmem happ
    simp only [Option.some.injEq, Prod.mk.injEq] at h
    obtain ⟨h1, h2⟩ := h
    subst h1
    rw [h2] at happ
    exact ⟨⟨by simp, hmem⟩, happ.symm⟩

theorem expect_some (c : Char) (s rest : List Char) (h : expect c s = some rest) :
    s = c :: rest := by
  cases s with
  | nil => simp [expect] at h
  | cons d t =>
    simp only [expect] at h
    split at h
    · rename_i hd
      simp only [Option.some.injEq] at h
      rw [hd, h]
    · cases h

theorem isDigitRun_iff (l : List Char) : IsDigitRun l ↔ IsRunOf Char.isDigit l := Iff.rfl

theorem chars_eq (d : Descriptor) :
    d.chars =
      regionChars d.region ++ 'z' :: (d.zone ++ '-' :: (d.ip ++ ':' :: (d.port ++
        (replicationChars d.replication ++ '/' :: (d.device ++ metadataChars d.metadata))))) := by
  unfold Descriptor.chars
  simp [List.append_assoc]

theorem rxMetadata_part (metadata : Option (List Char))
    (h : ∀ m, metadata = some m → m ≠ [] ∧ ∀ c ∈ m, c ≠ '\n') :
    rxMetadata (metadataChars metadata) = some (metadata.getD []) := by
  cases metadata with
  | none => rfl
  | some m =>
    obtain ⟨h1, h2⟩ := h m rfl
    have hall : (m.all (fun c => c != '\n')) = true := by
      rw [List.all_eq_true]
      intro c hc
      simpa using h2 c hc
    simp [rxMetadata, metadataChars, h1, hall]

theorem device_part (device : List Char) (metadata : Option (List Char))
    (hd : IsRunOf isDeviceChar device) :
    takeRun isDeviceChar (device ++ metadataChars metadata)
      = some (device, metadataChars metadata) := by
  apply takeRun_append _ _ _ hd
  intro c t h
  cases metadata with
  | none => cases h
  | some m =>
    simp only [metadataChars, List.cons.injEq] at h
    rw [← h.1]
    rfl

theorem rxReplication_part (replication : Option (List Char × List Char)) (Y : List Char)
    (h : ∀ q, replication = some q → IsRunOf isIpChar q.1 ∧ IsDigitRun q.2) :
    rxReplication (replicationChars replication ++ '/' :: Y)
      = some (((replication.map Prod.fst).getD [], (replication.map Prod.snd).getD []),
          '/' :: Y) := by
  cases replication with
  | none => rfl
  | some q =>
    obtain ⟨h1, h2⟩ := h q rfl
    have e1 : takeRun isIpChar (q.1 ++ ':' :: (q.2 ++ '/' :: Y))
        = some (q.1, ':' :: (q.2 ++ '/' :: Y)) := by
      apply takeRun_append _ _ _ h1
      intro c t hc
      simp only [List.cons.injEq] at hc
      rw [← hc.1]
      rfl
    have e2 : takeRun Char.isDigit (q.2 ++ '/' :: Y) = some (q.2, '/' :: Y) := by
      apply takeRun_append _ _ _ h2
      intro c t hc
      simp only [List.cons.injEq] at hc
      rw [← hc.1]
      rfl
    simp [rxReplication, replicationChars, e1, e2, expect, List.append_assoc]

theorem port_part (port : List Char) (replication : Option (List Char × List Char))
    (Y : List Char) (hp : IsDigitRun port) :
    takeRun Char.isDigit (port ++ (replicationChars replication ++ '/' :: Y))
      = some (port, replicationChars replication ++ '/' :: Y) := by
  apply takeRun_append _ _ _ hp
  intro c t h
  cases replication with
  | none =>
    simp only [replicationChars, List.nil_append, List.cons.injEq] at h
    rw [← h.1]
    rfl
  | some q =>
    simp only [replicationChars, List.cons_append, List.cons.injEq] at h
    rw [← h.1]
    rfl

theorem rxRegion_part (region : Option (List Char)) (Y : List Char)
    (h : ∀ r, region = some r → IsDigitRun r) :
    rxRegion (regionChars region ++ 'z' :: Y) = some (region.getD [], 'z' :: Y) := by
  cases region with
  | none => rfl
  | some r =>
    have e : takeRun Char.isDigit (r ++ 'z' :: Y) = some (r, 'z' :: Y) := by
      apply takeRun_append _ _ _ (h r rfl)
      intro c t hc
      simp only [List.cons.injEq] at hc
      rw [← hc.1]
      rfl
    simp [rxRegion, regionChars, e]

/-- A descriptor of the form is matched by the regular expression, each submatch being
the part as written. -/
theorem rxMatch_render (d : Descriptor) (hwf : d.WellFormed) :
    rxMatch d.render = some d.submatch := by
  obtain ⟨hr, hz, hi, hp, hq, hdv, hm⟩ := hwf
  have ez : ∀ Y, takeRun Char.isDigit (d.zone ++ '-' :: Y) = some (d.zone, '-' :: Y) := by
    intro Y
    apply takeRun_append _ _ _ hz
    intro c t hc
    simp only [List.cons.injEq] at hc
    rw [← hc.1]
    rfl
  have ei : ∀ Y, takeRun isIpChar (d.ip ++ ':' :: Y) = some (d.ip, ':' :: Y) := by
    intro Y
    apply takeRun_append _ _ _ hi
    intro c t hc
    simp only [List.cons.injEq] at hc
    rw [← hc.1]
    rfl
  unfold rxMatch Descriptor.render
  simp only [chars_eq, rxRegion_part d.region _ hr, Option.some_bind, expect, if_true, ez, ei,
    port_part d.port d.replication _ hp, rxReplication_part d.replication _ hq,
    device_part d.device d.metadata hdv, rxMetadata_part d.metadata hm]
  rfl

theorem rxRegion_some (s r s1 : List Char) (h : rxRegion s = some (r, s1)) :
    ∃ region : Option (List Char), (∀ r1, region = some r1 → IsDigitRun r1) ∧
      s = regionChars region ++ s1 ∧ r = region.getD [] := by
  unfold rxRegion at h
  split at h
  · rename_i t
    obtain ⟨h1, h2⟩ := takeRun_some _ _ _ _ h
    refine ⟨some r, ?_, by simp [regionChars, h2], rfl⟩
    intro r1 hr1
    cases hr1
    exact h1
  · simp only [Option.some.injEq, Prod.mk.injEq] at h
    exact ⟨none, by simp, by simp [regionChars, h.2], h.1.symm⟩

theorem rxReplication_some (s rip rport s1 : List Char)
    (h : rxReplication s = some ((rip, rport), s1)) :
    ∃ replication : Option (List Char × List Char),
      (∀ q, replication = some q → IsRunOf isIpChar q.1 ∧ IsDigitRun q.2) ∧
      s = replicationChars replication ++ s1 ∧
      rip = (replication.map Prod.fst).getD [] ∧ rport = (replication.map Prod.snd).getD [] := by
  unfold rxReplication at h
  split at h
  · rename_i t
    simp only [Option.bind_eq_some] at h
    obtain ⟨⟨a, t1⟩, h1, t2, h2, ⟨b, t3⟩, h3, h4⟩ := h
    simp only [Option.some.injEq, Prod.mk.injEq] at h4
    obtain ⟨⟨rfl, rfl⟩, rfl⟩ := h4
    obtain ⟨ha, hta⟩ := takeRun_some _ _ _ _ h1
    have ht1 := expect_some _ _ _ h2
    obtain ⟨hb, htb⟩ := takeRun_some _ _ _ _ h3
    refine ⟨some (a, b), ?_, ?_, rfl, rfl⟩
    · intro q hq
      cases hq
      exact ⟨ha, hb⟩
    · simp only at ht1
      simp [replicationChars, hta, ht1, htb]
  · simp only [Option.some.injEq, Prod.mk.injEq] at h
    obtain ⟨⟨rfl, rfl⟩, rfl⟩ := h
    exact ⟨none, by simp, by simp [replicationChars], rfl, rfl⟩

theorem rxMetadata_some (s m : List Char) (h : rxMetadata s = some m) :
    ∃ metadata : Option (List Char), (∀ m1, metadata = some m1 → m1 ≠ [] ∧ ∀ c ∈ m1, c ≠ '\n') ∧
      s = metadataChars metadata ∧ m = metadata.getD [] := by
  unfold rxMetadata at h
  split at h
  · simp only [Option.some.injEq] at h
    exact ⟨none, by simp, rfl, h.symm⟩
  · rename_i t
    split at h
    · rename_i hc
      simp only [Option.some.injEq] at h
      subst h
      refine ⟨some t, ?_, rfl, rfl⟩
      intro m1 hm1
      cases hm1
      refine ⟨hc.1, fun c hcm => ?_⟩
      have := List.all_eq_true.mp hc.2 c hcm
      simpa using this
    · cases h
  · cases h

/-- A string matched by the regular expression is a descriptor of the form, and the
submatches are its parts as written. -/
theorem rxMatch_some (deviceStr : String) (m : Submatch) (h : rxMatch deviceStr = some m) :
    ∃ d : Descriptor, d.WellFormed ∧ d.render = deviceStr ∧ d.submatch = m := by
  unfold rxMatch at h
  simp only [Option.bind_eq_some] at h
  obtain ⟨⟨region, s1⟩, h1, s2, h2, ⟨zone, s3⟩, h3, s4, h4, ⟨ip, s5⟩, h5, s6, h6, ⟨port, s7⟩, h7,
    ⟨⟨rip, rport⟩, s8⟩, h8, s9, h9, ⟨device, s10⟩, h10, metadata, h11, hm⟩ := h
  obtain ⟨oregion, wr, e1, rfl⟩ := rxRegion_some _ _ _ h1
  have e2 := expect_some _ _ _ h2
  obtain ⟨wz, e3⟩ := takeRun_some _ _ _ _ h3
  have e4 := expect_some _ _ _ h4
  obtain ⟨wi, e5⟩ := takeRun_some _ _ _ _ h5
  have e6 := expect_some _ _ _ h6
  obtain ⟨wp, e7⟩ := takeRun_some _ _ _ _ h7
  obtain ⟨orep, wq, e8, rfl, rfl⟩ := rxReplication_some _ _ _ _ h8
  have e9 := expect_some _ _ _ h9
  obtain ⟨wd, e10⟩ := takeRun_some _ _ _ _ h10
  obtain ⟨ometa, wm, e11, rfl⟩ := rxMetadata_some _ _ h11
  refine ⟨⟨oregion, zone, ip, port, orep, device, ometa⟩, ⟨wr, wz, wi, wp, wq, wd, wm⟩, ?_, ?_⟩
  · unfold Descriptor.render
    rw [chars_eq]
    simp only
    rw [← e11, ← e10, ← e9, ← e8, ← e7, ← e6, ← e5, ← e4, ← e3, ← e2, ← e1]
  · simp only [Option.some.injEq] at hm
    rw [← hm]
    rfl

/-! ### Claim C13: the add command -/

theorem digitValue_lt_ten (c : Char) (h : c.isDigit = true) : digitValue c < 10 := by
  unfold Char.isDigit at h
  simp only [Bool.and_eq_true, decide_eq_true_eq] at h
  have h2 : c.val.toNat ≤ 57 := h.2
  unfold digitValue Char.toNat
  omega

theorem foldl_decimal_ge (l : List Char) (n : Nat) :
    n ≤ l.foldl (fun n c => 10 * n + digitValue c) n := by
  induction l generalizing n with
  | nil => exact le_refl _
  | cons c cs ih =>
    simp only [List.foldl_cons]
    exact le_trans (by omega) (ih (10 * n + digitValue c))

theorem scanDigits_decimal (l : List Char) (n : Nat) (hd : ∀ c ∈ l, c.isDigit = true)
    (hlt : l.foldl (fun n c => 10 * n + digitValue c) n < 2 ^ 64) :
    scanDigits 10 n l = .ok (l.foldl (fun n c => 10 * n + digitValue c) n) := by
  induction l generalizing n with
  | nil => rfl
  | cons c cs ih =>
    have hc := hd c (List.mem_cons_self _ _)
    have hv := digitValue_lt_ten c hc
    simp only [List.foldl_cons] at hlt ⊢
    have hstep : 10 * n + digitValue c < 2 ^ 64 :=
      lt_of_le_of_lt (foldl_decimal_ge cs _) hlt
    simp only [scanDigits, hc, hv, and_self, if_true, hstep]
    exact ih _ (fun x hx => hd x (List.mem_cons_of_mem _ hx)) hlt

/-- On a plain decimal the call `strconv.ParseInt(s, 0, 64)` returns the base-10
value. -/
theorem ParseInt_plain (l : List Char) (h : PlainDecimal l) :
    ParseInt (String.mk l) = .ok (decimalValue l : Int) := by
  obtain ⟨⟨hne, hd⟩, hlead, hlt⟩ := h
  unfold ParseInt
  simp only [String.toList]
  rcases hlead with rfl | hhead
  · rfl
  · cases l with
    | nil => exact absurd rfl hne
    | cons c cs =>
      have hc : c ≠ '0' := by
        intro he
        rw [he] at hhead
        exact hhead rfl
      have hscan := scanDigits_decimal (c :: cs) 0 hd (lt_trans hlt (by norm_num))
      split
      · rename_i heq
        cases heq
      · rename_i c1 cs1 heq
        simp only [List.cons.injEq] at heq
        exact absurd heq.1 hc
      · rw [hscan]
        simp only [signedRange]
        unfold decimalValue at hlt ⊢
        rw [if_pos hlt]

theorem string_mk_ne_empty (l : List Char) (h : l ≠ []) : String.mk l ≠ "" := by
  intro he
  have := congrArg String.data he
  exact h this

theorem addCmd_plain {F D : Type} (env : CmdEnv F D) (debug : Bool) (pth a0 a1 : String)
    (d : Descriptor) (weightStr : String) (weight : F) (rest : List String)
    (hwf : d.WellFormed) (hplain : d.PlainNumbers) (hw : env.ParseFloat weightStr = .ok weight) :
    ∃ trace, addCmd env debug pth (a0 :: a1 :: d.render :: weightStr :: rest) = some trace ∧
      ringCalls trace = [RingCall.AddDevice pth (-1) d.regionValue (decimalValue d.zone)
        (String.mk d.ip) (decimalValue d.port) d.replicationIp d.replicationPortValue
        (String.mk d.device) weight debug] := by
  obtain ⟨pr, pz, pp, pq⟩ := hplain
  have hregion : (if d.submatch.region ≠ "" then ParseInt d.submatch.region else .ok 0)
      = (.ok d.regionValue : Except NumError Int) := by
    unfold Descriptor.submatch Descriptor.regionValue
    cases hr : d.region with
    | none => rfl
    | some r =>
      have hne := string_mk_ne_empty r (pr r hr).1.1
      simp only [Option.getD_some, ne_eq, hne, not_false_eq_true, if_true]
      exact ParseInt_plain r (pr r hr)
  have hrep : (if d.submatch.replication_ip ≠ "" then
        (ParseInt d.submatch.replication_port).map (fun p => (d.submatch.replication_ip, p))
      else .ok ("", 0))
      = (.ok (d.replicationIp, d.replicationPortValue) : Except NumError (String × Int)) := by
    unfold Descriptor.submatch Descriptor.replicationIp Descriptor.replicationPortValue
    cases hq : d.replication with
    | none => rfl
    | some q =>
      have hne := string_mk_ne_empty q.1 (hwf.2.2.2.2.1 q hq).1.1
      simp only [Option.map_some', Option.getD_some, ne_eq, hne, not_false_eq_true, if_true,
        ParseInt_plain q.2 (pq q hq)]
      rfl
  have hzone : ParseInt d.submatch.zone = .ok (decimalValue d.zone : Int) := ParseInt_plain _ pz
  have hport : ParseInt d.submatch.port = .ok (decimalValue d.port : Int) := ParseInt_plain _ pp
  unfold addCmd
  simp only [rxMatch_render d hwf, hregion, hzone, hport, hrep, hw]
  cases env.callError _ with
  | none => exact ⟨_, rfl, rfl⟩
  | some e => exact ⟨_, rfl, rfl⟩

theorem addCmd_no_match {F D : Type} (env : CmdEnv F D) (debug : Bool) (pth a0 a1 : String)
    (deviceStr weightStr : String) (rest : List String) (h : rxMatch deviceStr = none) :
    addCmd env debug pth (a0 :: a1 :: deviceStr :: weightStr :: rest) = some [Event.Usage] := by
  unfold addCmd
  simp only [h]

theorem addCmd_bad_weight {F D : Type} (env : CmdEnv F D) (debug : Bool) (pth a0 a1 : String)
    (deviceStr weightStr : String) (rest : List String) (e : String)
    (hw : env.ParseFloat weightStr = .error e) :
    ∃ trace, addCmd env debug pth (a0 :: a1 :: deviceStr :: weightStr :: rest) = some trace ∧
      ringCalls trace = [] := by
  unfold addCmd
  simp only [hw]
  cases rxMatch deviceStr with
  | none => exact ⟨_, rfl, rfl⟩
  | some m =>
    dsimp only
    cases (if m.region ≠ "" then ParseInt m.region else Except.ok 0) with
    | error e1 => exact ⟨_, rfl, rfl⟩
    | ok region =>
      dsimp only
      cases ParseInt m.zone with
      | error e1 => exact ⟨_, rfl, rfl⟩
      | ok zone =>
        dsimp only
        cases ParseInt m.port with
        | error e1 => exact ⟨_, rfl, rfl⟩
        | ok port =>
          dsimp only
          cases (if m.replication_ip ≠ "" then
              (ParseInt m.replication_port).map (fun p => (m.replication_ip, p))
            else Except.ok ("", 0)) with
          | error e1 => exact ⟨_, rfl, rfl⟩
          | ok rep => exact ⟨_, rfl, rfl⟩

/-- C13 as amended: for the `add` command (the builder path not being the word
`help`), (1) for every descriptor of the form whose region, zone, port and
replication-port digit runs are plain decimals (no superfluous leading zero, value
below `2^63`) and every weight that parses, the run makes exactly one mutating call,
`AddDevice` with id -1, the ip and the device name as written, region, zone, port and
replication port equal to the base-10 values of their digit runs, region 0 without the
`r` part and replication ip "" and port 0 without the `R` part; (2) a descriptor that
is not of the form gives no mutating call; (3) a weight that does not parse gives no
mutating call. -/
theorem C13_add_plain_decimal {F D : Type} (env : CmdEnv F D) (debug : Bool) (pth : String)
    (hpth : pth ≠ "help") :
    (∀ (d : Descriptor) (weightStr : String) (weight : F) (rest : List String),
      d.WellFormed → d.PlainNumbers → env.ParseFloat weightStr = .ok weight →
      ∃ trace,
        RingBuildCmd env debug (pth :: "add" :: d.render :: weightStr :: rest) = some trace ∧
        ringCalls trace = [RingCall.AddDevice pth (-1) d.regionValue (decimalValue d.zone)
          (String.mk d.ip) (decimalValue d.port) d.replicationIp d.replicationPortValue
          (String.mk d.device) weight debug])
    ∧ (∀ (deviceStr weightStr : String) (rest : List String),
      (¬ ∃ d : Descriptor, d.WellFormed ∧ d.render = deviceStr) →
      ∃ trace,
        RingBuildCmd env debug (pth :: "add" :: deviceStr :: weightStr :: rest) = some trace ∧
        ringCalls trace = [])
    ∧ (∀ (deviceStr weightStr : String) (rest : List String) (e : String),
      env.ParseFloat weightStr = .error e →
      ∃ trace,
        RingBuildCmd env debug (pth :: "add" :: deviceStr :: weightStr :: rest) = some trace ∧
        ringCalls trace = []) := by
  have hdispatch : ∀ (deviceStr weightStr : String) (rest : List String),
      RingBuildCmd env debug (pth :: "add" :: deviceStr :: weightStr :: rest)
        = addCmd env debug pth (pth :: "add" :: deviceStr :: weightStr :: rest) := by
    intro deviceStr weightStr rest
    simp [RingBuildCmd, hpth]
  refine ⟨?_, ?_, ?_⟩
  · intro d weightStr weight rest hwf hplain hw
    rw [hdispatch]
    exact addCmd_plain env debug pth pth "add" d weightStr weight rest hwf hplain hw
  · intro deviceStr weightStr rest hform
    rw [hdispatch]
    have hnone : rxMatch deviceStr = none := by
      cases hm : rxMatch deviceStr with
      | none => rfl
      | some m =>
        obtain ⟨d, hwf, hr, _⟩ := rxMatch_some deviceStr m hm
        exact absurd ⟨d, hwf, hr⟩ hform
    exact ⟨_, addCmd_no_match env debug pth pth "add" deviceStr weightStr rest hnone, rfl⟩
  · intro deviceStr weightStr rest e hw
    rw [hdispatch]
    exact addCmd_bad_weight env debug pth pth "add" deviceStr weightStr rest e hw

theorem leadingZeroDescriptor_wellFormed : leadingZeroDescriptor.WellFormed := by
  refine ⟨fun r h => (nomatch h), ⟨by decide, by decide⟩, ⟨by decide, by decide⟩,
    ⟨by decide, by decide⟩, fun q h => (nomatch h), ⟨by decide, by decide⟩,
    fun m h => (nomatch h)⟩

theorem eightDescriptor_wellFormed : eightDescriptor.WellFormed := by
  refine ⟨fun r h => (nomatch h), ⟨by decide, by decide⟩, ⟨by decide, by decide⟩,
    ⟨by decide, by decide⟩, fun q h => (nomatch h), ⟨by decide, by decide⟩,
    fun m h => (nomatch h)⟩

theorem hugeDescriptor_wellFormed : hugeDescriptor.WellFormed := by
  refine ⟨fun r h => (nomatch h), ⟨by decide, by decide⟩, ⟨by decide, by decide⟩,
    ⟨by decide, by decide⟩, fun q h => (nomatch h), ⟨by decide, by decide⟩,
    fun m h => (nomatch h)⟩

theorem fullDescriptor_wellFormed : fullDescriptor.WellFormed := by
  refine ⟨?_, ⟨by decide, by decide⟩, ⟨by decide, by decide⟩, ⟨by decide, by decide⟩, ?_,
    ⟨by decide, by decide⟩, ?_⟩
  · intro r h
    cases h
    exact ⟨by decide, by decide⟩
  · intro q h
    cases h
    exact ⟨⟨by decide, by decide⟩, ⟨by decide, by decide⟩⟩
  · intro m h
    cases h
    exact ⟨by decide, by decide⟩

theorem fullDescriptor_plain : fullDescriptor.PlainNumbers := by
  refine ⟨?_, ⟨⟨by decide, by decide⟩, by decide, by decide⟩,
    ⟨⟨by decide, by decide⟩, by decide, by decide⟩, ?_⟩
  · intro r h
    cases h
    exact ⟨⟨by decide, by decide⟩, by decide, by decide⟩
  · intro q h
    cases h
    exact ⟨⟨by decide, by decide⟩, by decide, by decide⟩

/-- C13 as stated fails: `z010-10.0.0.1:6000/sda` is a descriptor of the form whose zone
digit run has the base-10 value 10, and `AddDevice` is called with zone 8, because
`strconv.ParseInt(s, 0, 64)` reads a run with a leading zero in base 8; and
`z08-10.0.0.1:6000/sda` and `z9223372036854775808-10.0.0.1:6000/sda` are descriptors of
the form for which, with a weight that parses, `AddDevice` is not called, the first
run being no base-8 number and the second one exceeding `int64`. -/
theorem C13_leading_zero_counterexample :
    leadingZeroDescriptor.WellFormed ∧ decimalValue leadingZeroDescriptor.zone = 10 ∧
    (RingBuildCmd (sampleCmdEnv ("y\n", none)) false
        ["object.builder", "add", leadingZeroDescriptor.render, "2"]).map ringCalls
      = some [RingCall.AddDevice "object.builder" (-1) 0 8 "10.0.0.1" 6000 "" 0 "sda" 2 false] ∧
    eightDescriptor.WellFormed ∧
    (RingBuildCmd (sampleCmdEnv ("y\n", none)) false
        ["object.builder", "add", eightDescriptor.render, "2"]).map ringCalls = some [] ∧
    hugeDescriptor.WellFormed ∧
    (RingBuildCmd (sampleCmdEnv ("y\n", none)) false
        ["object.builder", "add", hugeDescriptor.render, "2"]).map ringCalls = some [] :=
  ⟨leadingZeroDescriptor_wellFormed, by decide, by rfl, eightDescriptor_wellFormed, by rfl,
    hugeDescriptor_wellFormed, by rfl⟩

/-- Instance of C13 as amended at `r1z2-10.0.0.1:6000R10.0.0.2:6001/sda_ssd` with the
weight `1`. -/
theorem C13_add_plain_decimal_witness :
    (RingBuildCmd (sampleCmdEnv ("y\n", none)) true
        ["object.builder", "add", fullDescriptor.render, "1"]).map ringCalls
      = some [RingCall.AddDevice "object.builder" (-1) 1 2 "10.0.0.1" 6000 "10.0.0.2" 6001 "sda"
          1 true] := by
  obtain ⟨trace, h1, h2⟩ :=
    (C13_add_plain_decimal (sampleCmdEnv ("y\n", none)) true "object.builder" (by decide)).1
      fullDescriptor "1" 1 [] fullDescriptor_wellFormed fullDescriptor_plain rfl
  rw [h1, Option.map_some', h2]
  rfl

/-- Instance of C11: `remove` with the response `Yes` removes the devices the search
returned. -/
theorem C11_mutation_iff_confirmed_witness :
    (RingBuildCmd (sampleCmdEnv ("Yes\n", none)) false ["object.builder", "remove"]).map ringCalls
      = some [RingCall.RemoveDevs "object.builder" [0, 2]] := by
  obtain ⟨trace, ht, hcase⟩ :=
    (C11_mutation_iff_confirmed (sampleCmdEnv ("Yes\n", none)) false "object.builder" []
      (by decide) (by decide)).2.2
  rw [ht, Option.map_some']
  rcases hcase with ⟨fl, devs, ⟨h1, h2, _, _⟩, hcalls⟩ | ⟨hneg, _⟩
  · simp only [sampleCmdEnv, Except.ok.injEq] at h1 h2
    subst h1
    subst h2
    rw [hcalls]
  · exfalso
    apply hneg
    exact ⟨_, _, rfl, rfl, by decide, by decide⟩

end Hummingbird
